import Mathlib

/-!
Verification development for the GPAI adaptive memory-and-selection engine
(`extensions/gpai-core`).  The TypeScript core is shallowly embedded:

* JS `number` values that carry scores/rates are modelled by the exact
  rational type `Q` below (every constant in the source is a decimal
  literal, and every claim is settled at inputs where the float
  computation is exact);
* ISO-8601 timestamp strings are modelled by their parse result in epoch
  milliseconds (`Int`); `Date.parse` failures and absent fields are modelled
  explicitly where the code branches on them;
* `Math.pow(0.985, days)` is modelled exactly on whole-day gaps
  (`pow0985` below); every theorem and every concrete input in this file
  exercises only whole-day gaps, where the model and the float agree;
* JS `Array.prototype.sort` (stable) is modelled by a stable insertion
  sort, and the JS string primitives (trim, toLowerCase, split,
  join/slice) by character-list functions (all data is ASCII, where code
  points and UTF-16 units agree).
-/

namespace GPAI

/-! ### Exact rational numbers

An executable rational type: numerator and positive denominator in lowest
terms, kept normalized by the smart constructor `mkQ`.  (It mirrors
`Mathlib`'s `ℚ` but its operations reduce inside the kernel, so concrete
runs of the embedded code can be checked by `decide`.) -/

/-- An exact rational: `num / den` (operations keep `den` positive and the
fraction reduced). -/
structure Q where
  num : Int
  den : Nat
deriving Repr, DecidableEq

/-- Build the reduced representation of `n / d` (sign moved to the
numerator); `d = 0` never arises from the embedded code. -/
def mkQ (n d : Int) : Q :=
  if d = 0 then ⟨0, 1⟩
  else
    let n' := if d < 0 then -n else n
    let d' := (if d < 0 then -d else d).toNat
    let g := Nat.gcd n'.natAbs d'
    ⟨n' / (g : Int), d' / g⟩

instance (n : Nat) : OfNat Q n := ⟨⟨(n : Int), 1⟩⟩

/-- Addition. -/
def Q.add (a b : Q) : Q := mkQ (a.num * b.den + b.num * a.den) ((a.den : Int) * b.den)

/-- Subtraction. -/
def Q.sub (a b : Q) : Q := mkQ (a.num * b.den - b.num * a.den) ((a.den : Int) * b.den)

/-- Multiplication. -/
def Q.mul (a b : Q) : Q := mkQ (a.num * b.num) ((a.den : Int) * b.den)

/-- Division. -/
def Q.div (a b : Q) : Q := mkQ (a.num * b.den) ((a.den : Int) * b.num)

instance : Add Q := ⟨Q.add⟩
instance : Sub Q := ⟨Q.sub⟩
instance : Mul Q := ⟨Q.mul⟩
instance : Div Q := ⟨Q.div⟩

/-- Order: `a ≤ b` by cross multiplication (denominators are positive for
every value the embedded code builds). -/
def Q.leB (a b : Q) : Bool := decide (a.num * b.den ≤ b.num * a.den)

/-- Strict order by cross multiplication. -/
def Q.ltB (a b : Q) : Bool := decide (a.num * b.den < b.num * a.den)

instance instLEQ : LE Q := ⟨fun a b => Q.leB a b = true⟩
instance instLTQ : LT Q := ⟨fun a b => Q.ltB a b = true⟩

instance (a b : Q) : Decidable (a ≤ b) :=
  inferInstanceAs (Decidable (Q.leB a b = true))

instance (a b : Q) : Decidable (a < b) :=
  inferInstanceAs (Decidable (Q.ltB a b = true))

instance : Min Q := ⟨fun a b => if Q.leB a b then a else b⟩
instance : Max Q := ⟨fun a b => if Q.leB a b then b else a⟩

/-- JS `Math.abs`. -/
def qAbs (a : Q) : Q := if a.num < 0 then ⟨-a.num, a.den⟩ else a

/-- Integer floor of a rational. -/
def Q.floorI (a : Q) : Int := Int.fdiv a.num a.den

/-- Natural-number power. -/
def Q.npow (a : Q) : Nat → Q
  | 0 => 1
  | n + 1 => (Q.npow a n) * a

/-- JS `Math.round`: nearest integer, ties toward positive infinity. -/
def jsRound (q : Q) : Int := Q.floorI (q + mkQ 1 2)

/-! ### JS string primitives (character-list implementations) -/

/-- Drop leading whitespace of a character list. -/
def dropWsL : List Char → List Char
  | [] => []
  | c :: cs => if c.isWhitespace then dropWsL cs else c :: cs

/-- JS `String.prototype.trim`. -/
def jsTrim (s : String) : String := ⟨(dropWsL (dropWsL s.data.reverse).reverse)⟩

/-- JS `String.prototype.toLowerCase` (ASCII data). -/
def jsToLower (s : String) : String := ⟨s.data.map Char.toLower⟩

/-- Splitting on whitespace runs (the uses of `split(/\s+/)` in the source
are always followed by dropping empty parts, which this matches). -/
def splitWsAux : List Char → List Char → List String
  | [], acc => [⟨acc.reverse⟩]
  | c :: cs, acc =>
    if c.isWhitespace then (⟨acc.reverse⟩ : String) :: splitWsAux cs []
    else splitWsAux cs (c :: acc)

/-- Split a string at whitespace characters. -/
def splitWs (s : String) : List String := splitWsAux s.data []

/-- JS `Array.prototype.join(sep)`. -/
def joinSep (sep : String) : List String → String
  | [] => ""
  | [x] => x
  | x :: xs => x ++ sep ++ joinSep sep xs

/-- JS `String.prototype.slice(0, n)` (ASCII data). -/
def jsTake (s : String) (n : Nat) : String := ⟨s.data.take n⟩

/-- JS string length (ASCII data). -/
def jsLength (s : String) : Nat := s.data.length

/-- Lexicographic strict order on character lists by code point. -/
def charListLt : List Char → List Char → Bool
  | [], [] => false
  | [], _ :: _ => true
  | _ :: _, [] => false
  | a :: as, b :: bs =>
    if a.toNat < b.toNat then true
    else if b.toNat < a.toNat then false
    else charListLt as bs

/-- JS lexicographic string comparison `a <= b` (code-unit order; all
strings in this development are ASCII, where code points coincide with
UTF-16 units). -/
def strLe (a b : String) : Bool := !charListLt b.data a.data

/-- `Math.pow(0.985, days)` for the decay exponent.  The float
transcendental has no exact rational embedding; we model it exactly on
whole-day gaps (the only gaps exercised anywhere in this development) and
extend to fractional days via the floor of the day count. -/
def pow0985 (days : Q) : Q := Q.npow (mkQ 985 1000) (Q.floorI days).toNat

/-- `clampRate` from `utils/profile.ts`: clamp to `[0,1]` (the non-finite
branch has no rational counterpart). -/
def clampRate (v : Q) : Q :=
  if v < 0 then 0 else if v > 1 then 1 else v

/-- `roundRate` from `utils/profile.ts`: `Math.round(clampRate(v) * 1000) / 1000`. -/
def roundRate (v : Q) : Q := mkQ (jsRound (clampRate v * 1000)) 1000

/-- Stable insertion step: insert `a` before the first element `b` with
`le a b` (matches the order a stable JS sort produces for a comparator
`cmp` with `le a b ↔ cmp a b ≤ 0`). -/
def orderedInsert (le : α → α → Bool) (a : α) : List α → List α
  | [] => [a]
  | b :: l => if le a b then a :: b :: l else b :: orderedInsert le a l

/-- Stable sort modelling JS `Array.prototype.sort` (stable per ES2019). -/
def stableSort (le : α → α → Bool) : List α → List α
  | [] => []
  | a :: l => orderedInsert le a (stableSort le l)

/-! ### Data model of `utils/profile.ts` -/

/-- `TaskComplexity` from `utils/profile.ts`. -/
inductive TaskComplexity where
  | low
  | medium
  | high
deriving Repr, DecidableEq

/-- `SuccessPattern` from `utils/profile.ts`.  `lastUsed` is the parsed
epoch-millisecond value of the ISO string (ISO strings of a fixed format
compare lexicographically exactly as their millisecond values compare). -/
structure SuccessPattern where
  task : String
  method : String
  successRate : Q
  lastUsed : Int
  sampleSize : Nat
  toolCombo : Option String
  project : Option String
  complexity : Option TaskComplexity
deriving Repr, DecidableEq

/-- `PatternSignal` from `utils/profile.ts`. -/
structure PatternSignal where
  score : Q
  weight : Q
deriving Repr, DecidableEq

/-- `UpdateSuccessPatternInput` from `utils/profile.ts`.  `timestamp` is the
parsed instant (`none` models an absent or unparsable string, which
`normalizeDate` replaces by the current time). -/
structure UpdateSuccessPatternInput where
  task : String
  agents : List String
  success : Option Bool
  rating : Option Q
  timestamp : Option Int
  toolsUsed : List String
  project : Option String
  complexity : Option String
  prompt : Option String
  result : Option String
  executionTime : Option Q
  modelCalls : Option Q
  intent : Option String
deriving Repr, DecidableEq

/-- A row of `data/history.json` as consumed by
`recomputePatternsFromHistory` (`HistoryEntryLike` in `utils/profile.ts`). -/
structure HistoryRow where
  intent : Option String
  agents : List String
  status : Option String
  timestamp : Option Int
  rating : Option Q
  project : Option String
  complexity : Option String
  toolsUsed : List String
  result : Option String
  executionTime : Option Q
  modelCalls : Option Q
deriving Repr, DecidableEq

/-- `normalizeDate` from `utils/profile.ts` on parsed instants: an absent or
unparsable input becomes the current time `now`. -/
def normalizeDate (t : Option Int) (now : Int) : Int := t.getD now

/-- `getDaysBetween` from `utils/profile.ts`: clamped-at-zero difference in
(fractional) days. -/
def getDaysBetween (previous current : Int) : Q :=
  mkQ (max 0 (current - previous)) (1000 * 60 * 60 * 24)

/-- `toMethod` from `utils/profile.ts`. -/
def toMethod (agents : List String) : String :=
  joinSep " + " ((agents.map jsTrim).filter (fun a => a ≠ ""))

/-- `normalizeStringArray` from `utils/profile.ts` (trim, drop empties; no
dedup — the hook file has a different function of the same name). -/
def profileNormalizeStringArray (value : List String) : List String :=
  (value.map jsTrim).filter (fun s => s ≠ "")

/-- First-occurrence deduplication, as produced by `[...new Set(xs)]`. -/
def dedupFirst : List String → List String
  | [] => []
  | a :: l => a :: (dedupFirst l).filter (fun b => b ≠ a)

/-- `normalizeToolCombo` from `utils/profile.ts`: trim+lowercase, drop
empties, dedupe, sort, join with `" + "`; `none` when nothing remains. -/
def normalizeToolCombo (value : List String) : Option String :=
  if value = [] then none
  else
    let normalized :=
      dedupFirst ((value.map (fun s => jsToLower (jsTrim s))).filter (fun s => s ≠ ""))
    if normalized = [] then none
    else some (joinSep " + " (stableSort strLe normalized))

/-- `normalizeProject` from `utils/profile.ts`. -/
def normalizeProject (value : Option String) : Option String :=
  match value with
  | none => none
  | some s => if jsTrim s = "" then none else some (jsTrim s)

/-- `normalizeComplexity` from `utils/profile.ts`. -/
def normalizeComplexity (value : Option String) : Option TaskComplexity :=
  match value with
  | none => none
  | some s =>
    let normalized := jsTrim (jsToLower s)
    if normalized = "low" then some .low
    else if normalized = "medium" then some .medium
    else if normalized = "high" then some .high
    else none

/-- `textTokenCount` from `utils/profile.ts`: whitespace-separated tokens. -/
def textTokenCount (text : String) : Nat :=
  (((splitWs text).map jsTrim).filter (fun p => p ≠ "")).length

/-- `InferComplexityInput` from `utils/profile.ts`. -/
structure InferComplexityInput where
  prompt : Option String
  result : Option String
  toolsUsed : List String
  executionTime : Option Q
  modelCalls : Option Q
  intent : Option String
deriving Repr, DecidableEq

/-- `inferTaskComplexity` from `utils/profile.ts`. -/
def inferTaskComplexity (input : InferComplexityInput) : TaskComplexity :=
  let text := jsTrim ((input.prompt.getD "") ++ " " ++ (input.result.getD ""))
  let tokens := textTokenCount text
  let score0 : Nat := if tokens ≥ 120 then 2 else if tokens ≥ 60 then 1 else 0
  let toolCount := input.toolsUsed.length
  let score1 := score0 + (if toolCount ≥ 4 then 2 else if toolCount ≥ 2 then 1 else 0)
  let executionTime := input.executionTime.getD 0
  let score2 := score1 +
    (if executionTime ≥ 5000 then 2 else if executionTime ≥ 2000 then 1 else 0)
  let modelCalls := input.modelCalls.getD 0
  let score3 := score2 + (if modelCalls ≥ 6 then 2 else if modelCalls ≥ 3 then 1 else 0)
  let intent := jsTrim (jsToLower (input.intent.getD ""))
  let score4 := score3 +
    (if intent = "strategy" ∨ intent = "research" ∨ intent = "security" then 1 else 0)
  if score4 ≥ 6 then .high else if score4 ≥ 3 then .medium else .low

/-- `toSignal` from `utils/profile.ts`. -/
def toSignal (input : UpdateSuccessPatternInput) : Option PatternSignal :=
  match input.rating with
  | some rating =>
    let bounded := max 1 (min 10 rating)
    some { score := bounded / 10, weight := mkQ 45 100 }
  | none =>
    match input.success with
    | some success =>
      some { score := if success then mkQ 9 10 else mkQ 2 10, weight := mkQ 25 100 }
    | none => none

/-- `historySignal` from `utils/profile.ts`. -/
def historySignal (row : HistoryRow) : Option PatternSignal :=
  match row.rating with
  | some rating =>
    let bounded := max 1 (min 10 rating)
    some { score := bounded / 10, weight := mkQ 45 100 }
  | none =>
    if row.status = some "completed" then some { score := mkQ 9 10, weight := mkQ 25 100 }
    else if row.status = some "failed" then some { score := mkQ 2 10, weight := mkQ 25 100 }
    else none

/-- The string a `TaskComplexity` option contributes to key building and to
the `(pattern.complexity || '')` comparisons. -/
def complexityStr : Option TaskComplexity → String
  | none => ""
  | some .low => "low"
  | some .medium => "medium"
  | some .high => "high"

/-- `buildPatternKey` from `utils/profile.ts`: the `'|'`-joined composite key. -/
def buildPatternKey (task method : String) (toolCombo project : Option String)
    (complexity : Option TaskComplexity) : String :=
  task ++ "|" ++ method ++ "|" ++ toolCombo.getD "" ++ "|" ++ project.getD "" ++ "|" ++
    complexityStr complexity

/-- Comparator order of the pattern sort in `utils/profile.ts`
(`successRate` descending with a 0.001 tolerance, then `lastUsed`
descending): `patternLe a b` iff the JS comparator returns `≤ 0` on `(a, b)`. -/
def patternLe (a b : SuccessPattern) : Bool :=
  if qAbs (b.successRate - a.successRate) > mkQ 1 1000 then
    Q.leB b.successRate a.successRate
  else decide (b.lastUsed ≤ a.lastUsed)

/-- The decay-then-blend step shared by `updateSuccessPattern` and
`recomputePatternsFromHistory` (`utils/profile.ts`): decay the old rate
toward 0.5 by `0.985^daysSince`, then blend in the new signal. -/
def decayBlend (oldRate : Q) (daysSince : Q) (signal : PatternSignal) : Q :=
  let decay := pow0985 daysSince
  let decayedRate := mkQ 1 2 + (oldRate - mkQ 1 2) * decay
  decayedRate * (1 - signal.weight) + signal.score * signal.weight

/-- The composite-key complexity of an incremental update
(`normalizeComplexity(...) || inferTaskComplexity(...)` in
`updateSuccessPattern`). -/
def updateComplexity (input : UpdateSuccessPatternInput) : Option TaskComplexity :=
  match normalizeComplexity input.complexity with
  | some c => some c
  | none => some (inferTaskComplexity
      { prompt := input.prompt, result := input.result, toolsUsed := input.toolsUsed,
        executionTime := input.executionTime, modelCalls := input.modelCalls,
        intent := match input.intent with | some i => some i | none => some input.task })

/-- The `findIndex` predicate of `updateSuccessPattern`: field-by-field
composite-key comparison with `''` standing for an absent field. -/
def updateMatches (input : UpdateSuccessPatternInput) (p : SuccessPattern) : Bool :=
  decide (p.task = input.task) && decide (p.method = toMethod input.agents) &&
    decide (p.toolCombo.getD "" = (normalizeToolCombo input.toolsUsed).getD "") &&
    decide (p.project.getD "" = (normalizeProject input.project).getD "") &&
    decide (complexityStr p.complexity = complexityStr (updateComplexity input))

/-- The pure core of `updateSuccessPattern` (`utils/profile.ts`): everything
the function does between `loadSuccessPatterns` and `writeProfile`.
`realNow` is the current time used by `normalizeDate` when the input has no
usable timestamp.  Returns the updated pattern (`none` on a no-op) and the
new pattern list. -/
def updateSuccessPattern (realNow : Int) (input : UpdateSuccessPatternInput)
    (patterns : List SuccessPattern) : Option SuccessPattern × List SuccessPattern :=
  let method := toMethod input.agents
  if input.task = "" ∨ method = "" then (none, patterns)
  else
    match toSignal input with
    | none => (none, patterns)
    | some signal =>
      let now := normalizeDate input.timestamp realNow
      let toolCombo := normalizeToolCombo input.toolsUsed
      let project := normalizeProject input.project
      let complexity := updateComplexity input
      let existingIndex := patterns.findIdx? (updateMatches input)
      let step := fun (current : SuccessPattern) =>
        let daysSince := getDaysBetween current.lastUsed now
        { current with
          successRate := roundRate (decayBlend current.successRate daysSince signal)
          lastUsed := now
          sampleSize := (if current.sampleSize = 0 then 1 else current.sampleSize) + 1
          toolCombo := toolCombo
          project := project
          complexity := complexity }
      let updatedAndNext :=
        match existingIndex.bind (fun i => (patterns[i]?).map (fun c => (i, c))) with
        | some (i, current) =>
          let u := step current
          (u, patterns.set i u)
        | none =>
          let u : SuccessPattern :=
            { task := input.task, method := method, successRate := roundRate signal.score,
              lastUsed := now, sampleSize := 1, toolCombo := toolCombo, project := project,
              complexity := complexity }
          (u, patterns ++ [u])
      (some updatedAndNext.1, (stableSort patternLe updatedAndNext.2).take 50)

/-- `SuccessPatternRecomputePolicy` from `utils/profile.ts`. -/
structure SuccessPatternRecomputePolicy where
  historyDeltaThreshold : Nat
  ratedDeltaThreshold : Nat
  minIntervalMs : Int
  forceDeltaWithoutInterval : Nat
  maxPatterns : Nat
deriving Repr, DecidableEq

/-- `SUCCESS_PATTERN_RECOMPUTE_POLICY` from `utils/profile.ts`. -/
def SUCCESS_PATTERN_RECOMPUTE_POLICY : SuccessPatternRecomputePolicy :=
  { historyDeltaThreshold := 30
    ratedDeltaThreshold := 10
    minIntervalMs := 15 * 60 * 1000
    forceDeltaWithoutInterval := 90
    maxPatterns := 50 }

/-- The task label `recomputePatternsFromHistory` derives from a row
(empty or absent intent defaults to `"analysis"`). -/
def rowTask (row : HistoryRow) : String :=
  if jsTrim (row.intent.getD "") = "" then "analysis" else jsTrim (row.intent.getD "")

/-- The method string `recomputePatternsFromHistory` derives from a row. -/
def rowMethod (row : HistoryRow) : String :=
  toMethod (profileNormalizeStringArray row.agents)

/-- The tool combo `recomputePatternsFromHistory` derives from a row. -/
def rowToolCombo (row : HistoryRow) : Option String :=
  normalizeToolCombo (profileNormalizeStringArray row.toolsUsed)

/-- The project `recomputePatternsFromHistory` derives from a row. -/
def rowProject (row : HistoryRow) : Option String :=
  normalizeProject row.project

/-- The complexity `recomputePatternsFromHistory` derives from a row. -/
def rowComplexity (row : HistoryRow) : Option TaskComplexity :=
  match normalizeComplexity row.complexity with
  | some c => some c
  | none => some (inferTaskComplexity
      { prompt := none, result := row.result,
        toolsUsed := profileNormalizeStringArray row.toolsUsed,
        executionTime := row.executionTime, modelCalls := row.modelCalls,
        intent := some (rowTask row) })

/-- The five composite-key components of a row. -/
def rowComponents (row : HistoryRow) : String × String × String × String × String :=
  (rowTask row, rowMethod row, (rowToolCombo row).getD "", (rowProject row).getD "",
    complexityStr (rowComplexity row))

/-- The `'|'`-joined map key `recomputePatternsFromHistory` buckets a row
under. -/
def rowKey (row : HistoryRow) : String :=
  buildPatternKey (rowTask row) (rowMethod row) (rowToolCombo row) (rowProject row)
    (rowComplexity row)

/-- Whether a row contributes to the recompute at all (non-empty method and
a usable signal). -/
def rowUsable (row : HistoryRow) : Bool :=
  decide (rowMethod row ≠ "") && (historySignal row).isSome

/-- The pattern a usable row turns an optional existing pattern into:
creation on `none`, the decay-then-blend update on `some`. -/
def applyRowToPattern (realNow : Int) (row : HistoryRow) (signal : PatternSignal) :
    Option SuccessPattern → SuccessPattern
  | none =>
    { task := rowTask row, method := rowMethod row, successRate := roundRate signal.score,
      lastUsed := normalizeDate row.timestamp realNow, sampleSize := 1,
      toolCombo := rowToolCombo row, project := rowProject row,
      complexity := rowComplexity row }
  | some current =>
    let timestamp := normalizeDate row.timestamp realNow
    let daysSince := getDaysBetween current.lastUsed timestamp
    { current with
      successRate := roundRate (decayBlend current.successRate daysSince signal)
      lastUsed := timestamp
      sampleSize := (if current.sampleSize = 0 then 1 else current.sampleSize) + 1
      toolCombo := rowToolCombo row
      project := rowProject row
      complexity := rowComplexity row }

/-- The per-row work of `recomputePatternsFromHistory`'s replay loop
(`utils/profile.ts` lines 501–565), acting on the insertion-ordered key map
(modelled as an association list, as a JS `Map` preserves insertion order). -/
def recomputeStep (realNow : Int) (byKey : List (String × SuccessPattern))
    (row : HistoryRow) : List (String × SuccessPattern) :=
  if rowMethod row = "" then byKey
  else
    match historySignal row with
    | none => byKey
    | some signal =>
      let key := rowKey row
      match byKey.lookup key with
      | none => byKey ++ [(key, applyRowToPattern realNow row signal none)]
      | some current =>
        let next := applyRowToPattern realNow row signal (some current)
        byKey.map (fun kv => if kv.1 = key then (key, next) else kv)

/-- `recomputePatternsFromHistory` from `utils/profile.ts`: sort the ledger
chronologically, replay each row into the key map, then sort the collected
patterns by rate (desc, 0.001 tolerance) / recency and cap at
`policy.maxPatterns`.  `realNow` models the current time taken for rows with
no usable timestamp. -/
def recomputePatternsFromHistory (realNow : Int) (rows : List HistoryRow)
    (policy : SuccessPatternRecomputePolicy) : List SuccessPattern :=
  let sortedRows := stableSort
    (fun a b =>
      decide (normalizeDate a.timestamp realNow ≤ normalizeDate b.timestamp realNow)) rows
  let byKey := sortedRows.foldl (recomputeStep realNow) []
  ((stableSort patternLe (byKey.map Prod.snd)).take policy.maxPatterns)

/-- The timestamp field of `RecomputeMeta.lastRunAt`: absent, an unparsable
string (`Date.parse` yields `NaN`), or a parsed instant. -/
inductive TsStr where
  | absent
  | invalid
  | valid (ms : Int)
deriving Repr, DecidableEq

/-- `SuccessPatternRecomputeMeta` from `utils/profile.ts`. -/
structure SuccessPatternRecomputeMeta where
  lastRunAt : TsStr
  lastHistoryCount : Nat
  lastRatedCount : Nat
deriving Repr, DecidableEq

/-- Input counts of `decideRecompute`. -/
structure RecomputeCounts where
  historyCount : Nat
  ratedCount : Nat
deriving Repr, DecidableEq

/-- Result of `decideRecompute`. -/
structure RecomputeDecision where
  shouldRun : Bool
  reason : String
  deltaHistory : Nat
  deltaRated : Nat
deriving Repr, DecidableEq

/-- `decideRecompute` from `utils/profile.ts`.  `nowMs` is the parse of the
`nowIso` argument (always a valid instant: every caller passes the output of
`normalizeDate`). -/
def decideRecompute (counts : RecomputeCounts) (meta : SuccessPatternRecomputeMeta)
    (nowMs : Int) (force : Bool) (policy : SuccessPatternRecomputePolicy) :
    RecomputeDecision :=
  let deltaHistory := counts.historyCount - meta.lastHistoryCount
  let deltaRated := counts.ratedCount - meta.lastRatedCount
  let historyReset := counts.historyCount < meta.lastHistoryCount ∨
    counts.ratedCount < meta.lastRatedCount
  if counts.historyCount = 0 then
    { shouldRun := false, reason := "empty-history",
      deltaHistory := deltaHistory, deltaRated := deltaRated }
  else if force then
    { shouldRun := true, reason := "force",
      deltaHistory := deltaHistory, deltaRated := deltaRated }
  else
    let lastRunMs : Int :=
      match meta.lastRunAt with
      | .absent => 0
      | .invalid => 0
      | .valid ms => ms
    let elapsedMs := max 0 (nowMs - lastRunMs)
    let intervalPassed := meta.lastRunAt = TsStr.absent ∨ elapsedMs ≥ policy.minIntervalMs
    if deltaHistory ≥ policy.forceDeltaWithoutInterval then
      { shouldRun := true, reason := "history-force-threshold",
        deltaHistory := deltaHistory, deltaRated := deltaRated }
    else if deltaRated ≥ policy.ratedDeltaThreshold * 3 then
      { shouldRun := true, reason := "rating-force-threshold",
        deltaHistory := deltaHistory, deltaRated := deltaRated }
    else if ¬ intervalPassed then
      { shouldRun := false, reason := "cooldown",
        deltaHistory := deltaHistory, deltaRated := deltaRated }
    else if historyReset then
      { shouldRun := true, reason := "history-reset",
        deltaHistory := deltaHistory, deltaRated := deltaRated }
    else if deltaHistory ≥ policy.historyDeltaThreshold then
      { shouldRun := true, reason := "history-threshold",
        deltaHistory := deltaHistory, deltaRated := deltaRated }
    else if deltaRated ≥ policy.ratedDeltaThreshold then
      { shouldRun := true, reason := "rating-threshold",
        deltaHistory := deltaHistory, deltaRated := deltaRated }
    else
      { shouldRun := false, reason := "threshold-not-met",
        deltaHistory := deltaHistory, deltaRated := deltaRated }

/-! ### Event store and tier rotation (`hooks/PreCompress.ts`) -/

/-- A memory entry as loaded by `loadTierEntries` in `hooks/PreCompress.ts`.
The loader (`normalizeMemoryEntry` in `utils/memory.ts`) guarantees a valid
timestamp, so `timestamp` is its parsed epoch-millisecond value. -/
structure MemoryEntry where
  id : String
  type : String
  sessionId : Option String
  intent : Option String
  content : String
  rating : Option Q
  timestamp : Int
deriving Repr, DecidableEq

/-- `PRECOMPRESS_POLICY` from `hooks/PreCompress.ts`. -/
structure PrecompressPolicy where
  hotKeepCount : Nat
  hotCompressionRatio : Q
  warmRetentionDays : Nat
  warmMaxCount : Nat
  coldMaxCount : Nat
deriving Repr, DecidableEq

/-- The constant `PRECOMPRESS_POLICY` values. -/
def PRECOMPRESS_POLICY : PrecompressPolicy :=
  { hotKeepCount := 20, hotCompressionRatio := mkQ 85 100, warmRetentionDays := 21,
    warmMaxCount := 300, coldMaxCount := 1000 }

/-- `memoryIdentity` from `hooks/PreCompress.ts` (the timestamp is
interpolated via its millisecond value, faithful for normalized entries). -/
def memoryIdentity (e : MemoryEntry) : String :=
  e.type ++ "|" ++ e.sessionId.getD "" ++ "|" ++ e.intent.getD "" ++ "|" ++
    toString e.timestamp ++ "|" ++ e.content

/-- `dedupeEntries` from `hooks/PreCompress.ts` with its `seen` set made
explicit. -/
def dedupeEntriesAux (seen : List String) : List MemoryEntry → List MemoryEntry
  | [] => []
  | e :: rest =>
    if memoryIdentity e ∈ seen then dedupeEntriesAux seen rest
    else e :: dedupeEntriesAux (memoryIdentity e :: seen) rest

/-- `dedupeEntries` from `hooks/PreCompress.ts`. -/
def dedupeEntries (entries : List MemoryEntry) : List MemoryEntry :=
  dedupeEntriesAux [] entries

/-- Ascending `sortByTimestamp` order from `hooks/PreCompress.ts`. -/
def entryTsLe (a b : MemoryEntry) : Bool := decide (a.timestamp ≤ b.timestamp)

/-- `isOlderThanDays` from `hooks/PreCompress.ts`. -/
def isOlderThanDays (e : MemoryEntry) (days : Nat) (nowMs : Int) : Bool :=
  decide (nowMs - e.timestamp > (days : Int) * 24 * 60 * 60 * 1000)

/-- The three tiers together with the per-boundary counts reported by
`handlePreCompress`. -/
structure RotationResult where
  nextHot : List MemoryEntry
  nextWarm : List MemoryEntry
  nextCold : List MemoryEntry
  hotToWarmCount : Nat
  warmToColdCount : Nat
  coldPrunedCount : Nat
deriving Repr, DecidableEq

/-- The hot-tier stage of `handlePreCompress` (lines 113–124): decide
whether to rotate and split off the oldest overflow.  Returns
`(hotToWarm, nextHot)`. -/
def rotateHotStage (tokenUsage maxTokens : Q) (hotEntries : List MemoryEntry) :
    List MemoryEntry × List MemoryEntry :=
  let shouldRotateHot := hotEntries.length > PRECOMPRESS_POLICY.hotKeepCount ∨
    tokenUsage ≥ maxTokens * PRECOMPRESS_POLICY.hotCompressionRatio
  if shouldRotateHot ∧ hotEntries.length > PRECOMPRESS_POLICY.hotKeepCount then
    (hotEntries.take (hotEntries.length - PRECOMPRESS_POLICY.hotKeepCount),
      hotEntries.drop (hotEntries.length - PRECOMPRESS_POLICY.hotKeepCount))
  else ([], hotEntries)

/-- The warm-tier stage of `handlePreCompress` (lines 126–138): merge and
dedupe the arrivals, age out beyond the retention window, move the count
overflow.  Returns `(warmToCold, nextWarm)`. -/
def rotateWarmStage (nowMs : Int) (warmEntries hotToWarm : List MemoryEntry) :
    List MemoryEntry × List MemoryEntry :=
  let warmCombined := stableSort entryTsLe (dedupeEntries (warmEntries ++ hotToWarm))
  let warmToColdByAge := warmCombined.filter
    (fun e => isOlderThanDays e PRECOMPRESS_POLICY.warmRetentionDays nowMs)
  let warmRecent := warmCombined.filter
    (fun e => !isOlderThanDays e PRECOMPRESS_POLICY.warmRetentionDays nowMs)
  let warmOverflow := warmRecent.length - PRECOMPRESS_POLICY.warmMaxCount
  let warmToColdByCount := if warmOverflow > 0 then warmRecent.take warmOverflow else []
  let nextWarm := if warmOverflow > 0 then warmRecent.drop warmOverflow else warmRecent
  (stableSort entryTsLe (dedupeEntries (warmToColdByAge ++ warmToColdByCount)), nextWarm)

/-- The cold-tier stage of `handlePreCompress` (lines 139–141): merge,
dedupe, and prune the oldest overflow for good.  Returns
`(coldPrunedCount, nextCold)`. -/
def rotateColdStage (coldEntries warmToCold : List MemoryEntry) :
    Nat × List MemoryEntry :=
  let coldCombined := stableSort entryTsLe (dedupeEntries (coldEntries ++ warmToCold))
  let coldPrunedCount := coldCombined.length - PRECOMPRESS_POLICY.coldMaxCount
  (coldPrunedCount,
    if coldPrunedCount > 0 then coldCombined.drop coldPrunedCount else coldCombined)

/-- The tier-rotation core of `handlePreCompress` (`hooks/PreCompress.ts`
lines 108–148), with the loaded tier contents, the clock and the token
figures as explicit inputs and the persisted tiers plus reported counts as
output (file I/O and the summary string are outside this core). -/
def rotateTiers (nowMs : Int) (tokenUsage maxTokens : Q)
    (hot warm cold : List MemoryEntry) : RotationResult :=
  let hotEntries := stableSort entryTsLe hot
  let warmEntries := stableSort entryTsLe warm
  let coldEntries := stableSort entryTsLe cold
  let hw := rotateHotStage tokenUsage maxTokens hotEntries
  let wc := rotateWarmStage nowMs warmEntries hw.1
  let cc := rotateColdStage coldEntries wc.1
  { nextHot := hw.2, nextWarm := wc.2, nextCold := cc.2,
    hotToWarmCount := hw.1.length, warmToColdCount := wc.1.length,
    coldPrunedCount := cc.1 }

/-! ### Agent scoring, composition and constraints (`hooks/BeforeAgent`) -/

/-- `AGENT_COMPOSITION_POLICY` from the before-agent hook. -/
structure AgentCompositionPolicy where
  maxAgents : Nat
  minBaseAgents : Nat
  replacementMinScore : Q
  replacementDelta : Q
  injectionMinScore : Q
  minSimilarityBoost : Q
  forceInjectionScore : Q
deriving Repr, DecidableEq

/-- The constant `AGENT_COMPOSITION_POLICY` values. -/
def AGENT_COMPOSITION_POLICY : AgentCompositionPolicy :=
  { maxAgents := 4, minBaseAgents := 1, replacementMinScore := 2, replacementDelta := 1,
    injectionMinScore := mkQ 12 10, minSimilarityBoost := mkQ 8 10,
    forceInjectionScore := mkQ 15 2 }

/-- `uniqueAgents` from the before-agent hook: drop blank names, dedupe
keeping first occurrences. -/
def uniqueAgents (values : List String) : List String :=
  dedupFirst (values.filter (fun v => jsTrim v ≠ ""))

/-- `(map.get(agent) || 0)` on a score map (modelled as an association
list keyed uniquely, in insertion order, like a JS `Map`). -/
def scoreGet (score : List (String × Q)) (agent : String) : Q :=
  (score.lookup agent).getD 0

/-- `AgentScoringResult` from the before-agent hook. -/
structure AgentScoringResult where
  rankedAgents : List String
  scoreByAgent : List (String × Q)
deriving Repr, DecidableEq

/-- `DynamicCompositionResult` from the before-agent hook. -/
structure DynamicCompositionResult where
  agents : List String
  injectedAgents : List String
  replacedBaselineAgents : List String
deriving Repr, DecidableEq

/-- JS `Set.add` on an insertion-ordered set modelled as a list. -/
def addUnique (l : List String) (a : String) : List String :=
  if a ∈ l then l else l ++ [a]

/-- State of the candidate loop in `composeDynamicAgents`. -/
structure ComposeState where
  selected : List String
  injected : List String
  replaced : List String
deriving Repr, DecidableEq

/-- The indices of the current selection sorted by score ascending (the
`sortSelectedByScoreAsc` helper inside `composeDynamicAgents`). -/
def sortIdxByScoreAsc (score : List (String × Q)) (selected : List String) : List Nat :=
  (stableSort (fun (x y : Nat × String) => Q.leB (scoreGet score x.2) (scoreGet score y.2))
    selected.enum).map Prod.fst

/-- One iteration of the candidate loop of `composeDynamicAgents`: inject
into a free slot, or replace the weakest eligible incumbent (never the
anchor, never dropping the baseline count below the minimum). -/
def composeStep (score : List (String × Q)) (baseSet : List String)
    (baselineAnchor : Option String) (st : ComposeState) (candidate : String) :
    ComposeState :=
  let candidateScore := scoreGet score candidate
  if candidateScore < AGENT_COMPOSITION_POLICY.replacementMinScore then st
  else if st.selected.length < AGENT_COMPOSITION_POLICY.maxAgents then
    { st with selected := st.selected ++ [candidate],
              injected := addUnique st.injected candidate }
  else
    let baseCount := (st.selected.filter (fun a => baseSet.contains a)).length
    let replaceIndex := (sortIdxByScoreAsc score st.selected).find? (fun index =>
      match st.selected[index]? with
      | none => false
      | some existing =>
        let existingScore := scoreGet score existing
        let replacingBase := baseSet.contains existing
        if some existing = baselineAnchor then false
        else if replacingBase ∧ baseCount ≤ AGENT_COMPOSITION_POLICY.minBaseAgents then
          false
        else Q.leB (existingScore + AGENT_COMPOSITION_POLICY.replacementDelta) candidateScore)
    match replaceIndex with
    | none => st
    | some index =>
      let removed := (st.selected[index]?).getD ""
      { selected := st.selected.set index candidate
        injected := addUnique st.injected candidate
        replaced := if baseSet.contains removed then addUnique st.replaced removed
          else st.replaced }

/-- The score-descending baseline order of `composeDynamicAgents` (original
baseline order on 0.001-ties). -/
def baselineLe (score : List (String × Q)) (baseAgents : List String) (a b : String) : Bool :=
  if qAbs (scoreGet score b - scoreGet score a) > mkQ 1 1000 then
    Q.leB (scoreGet score b) (scoreGet score a)
  else decide (baseAgents.indexOf a ≤ baseAgents.indexOf b)

/-- The final score-descending order of `composeDynamicAgents`
(lexicographic on 0.001-ties). -/
def orderedLe (score : List (String × Q)) (a b : String) : Bool :=
  if qAbs (scoreGet score b - scoreGet score a) > mkQ 1 1000 then
    Q.leB (scoreGet score b) (scoreGet score a)
  else strLe a b

/-- The tail of `composeDynamicAgents` after the candidate loop: the empty
fallback, the baseline-minimum fixup, and the final ordering/truncation. -/
def composeFinish (score : List (String × Q)) (baseSet fallbackRanked baseline : List String)
    (st : ComposeState) : DynamicCompositionResult :=
  if st.selected.length = 0 then
    { agents := fallbackRanked.take AGENT_COMPOSITION_POLICY.maxAgents,
      injectedAgents := [], replacedBaselineAgents := [] }
  else
    let baseCount := (st.selected.filter (fun a => baseSet.contains a)).length
    let selectedFixed :=
      if baseCount < AGENT_COMPOSITION_POLICY.minBaseAgents then
        match baseline.head? with
        | none => st.selected
        | some strongestBase =>
          let nonBaseAsc := stableSort
            (fun (x y : Nat × String) => Q.leB (scoreGet score x.2) (scoreGet score y.2))
            (st.selected.enum.filter (fun x => !baseSet.contains x.2))
          match nonBaseAsc.head? with
          | some w => st.selected.set w.1 strongestBase
          | none =>
            if st.selected.length < AGENT_COMPOSITION_POLICY.maxAgents then
              st.selected ++ [strongestBase]
            else st.selected
      else st.selected
    let ordered := stableSort (orderedLe score) (uniqueAgents selectedFixed)
    { agents := ordered.take AGENT_COMPOSITION_POLICY.maxAgents,
      injectedAgents := st.injected, replacedBaselineAgents := st.replaced }

/-- `composeDynamicAgents` from the before-agent hook, with the candidate
`forEach` loop expressed as a fold over `composeStep` and the final fixup
expressed through `composeFinish`. -/
def composeDynamicAgents (scoring : AgentScoringResult)
    (baseAgents knownAgents : List String)
    (similarityBoost : List (String × Q)) : DynamicCompositionResult :=
  let baseSet := uniqueAgents baseAgents
  let baselineAnchor := (uniqueAgents baseAgents).head?
  let score := scoring.scoreByAgent
  let knownOk := fun (a : String) =>
    if knownAgents.length > 0 then knownAgents.contains a else true
  let fallbackRanked := scoring.rankedAgents.filter knownOk
  let baseline := (stableSort (baselineLe score baseAgents)
    ((uniqueAgents baseAgents).filter knownOk)).take AGENT_COMPOSITION_POLICY.maxAgents
  let candidateQueue := fallbackRanked.filter (fun agent =>
    if baseSet.contains agent || baseline.contains agent then false
    else
      let candidateScore := scoreGet score agent
      if candidateScore < AGENT_COMPOSITION_POLICY.injectionMinScore then false
      else
        let similarity := (similarityBoost.lookup agent).getD 0
        if candidateScore ≥ AGENT_COMPOSITION_POLICY.forceInjectionScore then true
        else Q.leB AGENT_COMPOSITION_POLICY.minSimilarityBoost similarity)
  let st := candidateQueue.foldl (composeStep score baseSet baselineAnchor)
    { selected := baseline, injected := [], replaced := [] }
  composeFinish score baseSet fallbackRanked baseline st

/-- `AgentConstraints` from the before-agent hook (`include` is a Lean
keyword, hence the escaped field name). -/
structure AgentConstraints where
  «include» : List String
  exclude : List String
  only : Bool
deriving Repr, DecidableEq

/-- `applyAgentConstraints` from the before-agent hook. -/
def applyAgentConstraints (rankedAgents baseAgents : List String)
    (constraints : AgentConstraints) (knownAgents : List String) : List String :=
  let excluded := constraints.exclude
  let included := constraints.include.filter (fun a => !excluded.contains a)
  if constraints.only ∧ included.length > 0 then included.take 4
  else
    let next0 := (uniqueAgents rankedAgents).filter (fun a => !excluded.contains a)
    let next1 :=
      if included.length > 0 then
        included ++ next0.filter (fun a => !included.contains a)
      else next0
    let next2 :=
      if next1.length = 0 then
        let baseFallback := (uniqueAgents baseAgents).filter (fun a => !excluded.contains a)
        if baseFallback.length > 0 then baseFallback else next1
      else next1
    let next3 :=
      if next2.length = 0 then
        let knownFallback := (uniqueAgents knownAgents).filter (fun a => !excluded.contains a)
        if knownFallback.length > 0 then knownFallback else next2
      else next2
    next3.take 4

/-- `normalizeProjectValue` from the before-agent hook. -/
def normalizeProjectValue : Option String → Option String
  | none => none
  | some v =>
    let n := jsToLower (jsTrim v)
    if n = "" then none else some n

/-- `normalizeString(x)?.toLowerCase()` as applied to intents in
`buildSimilaritySignal`. -/
def normalizedIntent (v : Option String) : Option String :=
  match v with
  | none => none
  | some s => if jsTrim s = "" then none else some (jsToLower (jsTrim s))

/-- The `sameIntent` flag of `buildSimilaritySignal`: a row with no recorded
intent counts as matching. -/
def sameIntentFlag (entryIntent : Option String) (contextIntent : String) : Bool :=
  match normalizedIntent entryIntent with
  | none => true
  | some e => e = contextIntent

/-- The project sub-score of `buildSimilaritySignal` (`hooks/BeforeAgent`):
the `projectSimilarity` computation on the raw entry/context projects and
the row's `sameIntent` flag. -/
def projectSimilarity (entryProjectRaw contextProjectRaw : Option String)
    (sameIntent : Bool) : Q :=
  let entryProject := normalizeProjectValue entryProjectRaw
  let contextProject := normalizeProjectValue contextProjectRaw
  let base : Q :=
    match entryProject, contextProject with
    | some e, some c => if e = c then 1 else mkQ 5 100
    | none, none => mkQ 35 100
    | _, _ => mkQ 25 100
  if ¬ sameIntent then min base (mkQ 2 10) else base

/-! ### The before-agent pipeline (`hooks/BeforeAgent`) -/

/-- `BeforeAgentInput` (the conversation history is not consumed by the
selection pipeline). -/
structure BeforeAgentInput where
  prompt : String
  sessionId : String
deriving Repr, DecidableEq

/-- `BeforeAgentOutput` from the before-agent hook. -/
structure BeforeAgentOutput where
  modifiedPrompt : String
  injectedContext : String
  suggestedAgents : List String
  systemInstructions : String
deriving Repr, DecidableEq

/-- `SimilarityContext` from the before-agent hook. -/
structure SimilarityContext where
  intent : String
  project : Option String
  complexity : TaskComplexity
  toolsUsed : List String
  prompt : String
deriving Repr, DecidableEq

/-- `SimilaritySignal` from the before-agent hook (the boost map as an
insertion-ordered association list). -/
structure SimilaritySignal where
  agentScoreBoost : List (String × Q)
  topCases : List String
deriving Repr, DecidableEq

/-- Modelled from the spec: the user-preference profile supplied by the
`utils/telos.ts` collaborator (a file not part of this core); only the
preferred-roles list flows into the selection pipeline. -/
structure TelosProfile where
  preferredAgents : List String
deriving Repr, DecidableEq

/-- The collaborator boundary of `handleBeforeAgent`: every call the `try`
block makes that touches files, configuration or the intent oracle, plus
the pure sub-computations (constraint parsing, similarity mining, scoring)
whose internals no claim depends on.  Fallible calls return
`Except String _`, modelling a thrown exception by `.error`. -/
structure BeforeAgentSteps where
  availableAgentIds : List String
  captureFeedbackSignal : String → String → Except String (Option Q)
  applyTelosUpdates : String → Except String Unit
  analyzeIntent : String → Except String String
  parseAgentConstraints : String → List String → AgentConstraints
  selectAgentsByIntent : String → Except String (List String)
  loadTelosProfile : Except String TelosProfile
  ensureTelosGoal : String → Except String Bool
  detectRelevantProjects : TelosProfile → String → List String
  inferLikelyTools : String → List String
  readMemoryEntries : Except String (List MemoryEntry)
  loadSuccessPatterns : Except String (List SuccessPattern)
  readHistoryEntries : Except String (List HistoryRow)
  buildSimilaritySignal :
    SimilarityContext → List HistoryRow → List String → Except String SimilaritySignal
  scoreAgents :
    String → Option String → TaskComplexity → Option String → List String → List String →
      List MemoryEntry → List SuccessPattern → List (String × Q) →
      Except String AgentScoringResult
  createWorkItem : String → String → String → List String → Except String Unit
  retrieveRelevantMemory : String → String → Except String String
  buildPreferenceSummary : String → List String → Except String String
  generateSystemInstructions : List String → String → String → Except String String
  buildModifiedPrompt : String → List String → String → Except String String

/-- The `try` block of `handleBeforeAgent`: the selection pipeline in source
order, threading the composition and constraint application through their
real definitions. -/
def runBeforeAgentBody (steps : BeforeAgentSteps) (input : BeforeAgentInput) :
    Except String BeforeAgentOutput := do
  let knownAgentIds := steps.availableAgentIds
  let _feedback ← steps.captureFeedbackSignal input.prompt input.sessionId
  let _telos ← steps.applyTelosUpdates input.prompt
  let intent ← steps.analyzeIntent input.prompt
  let agentConstraints := steps.parseAgentConstraints input.prompt knownAgentIds
  let baseAgents ← steps.selectAgentsByIntent intent
  let profile ← steps.loadTelosProfile
  let _goalAdded ← steps.ensureTelosGoal intent
  let relatedProjects := steps.detectRelevantProjects profile input.prompt
  let likelyTools := steps.inferLikelyTools input.prompt
  let likelyToolCombo := normalizeToolCombo likelyTools
  let taskComplexity := inferTaskComplexity
    { prompt := some input.prompt, result := none, toolsUsed := likelyTools,
      executionTime := none, modelCalls := none, intent := some intent }
  let memoryForPreference ← steps.readMemoryEntries
  let successPatterns ← steps.loadSuccessPatterns
  let historyEntries ← steps.readHistoryEntries
  let similaritySignal ← steps.buildSimilaritySignal
    { intent := intent, project := relatedProjects.head?, complexity := taskComplexity,
      toolsUsed := likelyTools, prompt := input.prompt } historyEntries knownAgentIds
  let scoring ← steps.scoreAgents intent relatedProjects.head? taskComplexity likelyToolCombo
    baseAgents profile.preferredAgents memoryForPreference successPatterns
    similaritySignal.agentScoreBoost
  let composition := composeDynamicAgents scoring baseAgents knownAgentIds
    similaritySignal.agentScoreBoost
  let suggestedAgents := applyAgentConstraints composition.agents baseAgents agentConstraints
    knownAgentIds
  let _workItem ← steps.createWorkItem input.sessionId input.prompt intent suggestedAgents
  let relevantMemory ← steps.retrieveRelevantMemory input.prompt intent
  let preferenceSummary ← steps.buildPreferenceSummary intent suggestedAgents
  let systemInstructions ←
    steps.generateSystemInstructions suggestedAgents intent preferenceSummary
  let modifiedPrompt ← steps.buildModifiedPrompt input.prompt suggestedAgents intent
  pure { modifiedPrompt := modifiedPrompt, injectedContext := relevantMemory,
         suggestedAgents := suggestedAgents, systemInstructions := systemInstructions }

/-- The `catch` branch of `handleBeforeAgent`: the degraded default
response. -/
def fallbackBeforeAgentOutput (input : BeforeAgentInput) : BeforeAgentOutput :=
  { modifiedPrompt := input.prompt, injectedContext := "",
    suggestedAgents := ["engineer", "analyst"], systemInstructions := "" }

/-- `handleBeforeAgent`: the whole pipeline wrapped in its `try`/`catch`. -/
def handleBeforeAgent (steps : BeforeAgentSteps) (input : BeforeAgentInput) :
    BeforeAgentOutput :=
  match runBeforeAgentBody steps input with
  | .ok out => out
  | .error _ => fallbackBeforeAgentOutput input

/-! ### Ledger replay reference for claim C2 -/

/-- The incremental-update event a ledger row denotes when the Outcome
Ledger is replayed through `updateSuccessPattern` (the spec-side reference
of the refinement claim): field for field the same normalization
`recomputePatternsFromHistory` applies to the row. -/
def rowToUpdateInput (row : HistoryRow) : UpdateSuccessPatternInput :=
  { task := if jsTrim (row.intent.getD "") = "" then "analysis" else jsTrim (row.intent.getD "")
    agents := profileNormalizeStringArray row.agents
    success :=
      if row.status = some "completed" then some true
      else if row.status = some "failed" then some false
      else none
    rating := row.rating
    timestamp := row.timestamp
    toolsUsed := profileNormalizeStringArray row.toolsUsed
    project := row.project
    complexity := row.complexity
    prompt := none
    result := row.result
    executionTime := row.executionTime
    modelCalls := row.modelCalls
    intent := none }

/-- The spec-side semantics of claim C2: apply `updateSuccessPattern` to
every historical event in order, starting from an empty pattern store. -/
def replayLedger (realNow : Int) (rows : List HistoryRow) : List SuccessPattern :=
  rows.foldl (fun pats row => (updateSuccessPattern realNow (rowToUpdateInput row) pats).2) []

/-! ### Work items (`utils/work.ts`) -/

/-- `WorkStatus` from `utils/work.ts`. -/
inductive WorkStatus where
  | inProgress
  | completed
  | failed
deriving Repr, DecidableEq

/-- The `execution` record of a `WorkItemMeta`. -/
structure WorkExecution where
  executionTime : Q
  toolsUsed : List String
  modelCalls : Q
  success : Bool
  errorMessage : Option String
deriving Repr, DecidableEq

/-- `WorkItemMeta` from `utils/work.ts`; `createdAt`/`updatedAt` are parsed
instants (the generated ISO strings compare lexicographically exactly as
their millisecond values do). -/
structure WorkItemMeta where
  id : String
  sessionId : String
  prompt : String
  intent : String
  project : Option String
  complexity : Option TaskComplexity
  createdAt : Int
  updatedAt : Int
  status : WorkStatus
  agents : List String
  execution : Option WorkExecution
  resultSummary : Option String
deriving Repr, DecidableEq

/-- `FinalizeWorkInput` from `utils/work.ts` (`sessionId = none` models an
absent or empty — JS-falsy — session id). -/
structure FinalizeWorkInput where
  sessionId : Option String
  success : Bool
  executionTime : Q
  toolsUsed : List String
  modelCalls : Q
  errorMessage : Option String
  resultSummary : String
deriving Repr, DecidableEq

/-- `summarizeResult` from `utils/work.ts` (whitespace collapse, 300-char
cap; strings in this development are ASCII so code points model UTF-16
units). -/
def summarizeResult (result : String) : String :=
  let normalized := joinSep " " ((splitWs result).filter (fun p => p ≠ ""))
  if jsLength normalized ≤ 300 then normalized
  else (jsTake normalized 297) ++ "..."

/-- The first `find` predicate of `finalizeLatestWorkItem`: an in-progress
item, matching the request's session when one is given. -/
def finalizeTargetPred (input : FinalizeWorkInput) (ref : WorkItemMeta) : Bool :=
  if ref.status ≠ WorkStatus.inProgress then false
  else
    match input.sessionId with
    | some sid => ref.sessionId = sid
    | none => true

/-- The fallback `find` predicate of `finalizeLatestWorkItem`: any item of
the request's session, regardless of status (nothing when no session is
given). -/
def finalizeFallbackPred (input : FinalizeWorkInput) (ref : WorkItemMeta) : Bool :=
  match input.sessionId with
  | none => false
  | some sid => ref.sessionId = sid

/-- The finalized version of a work item. -/
def finalizedItem (input : FinalizeWorkInput) (nowMs : Int) (t : WorkItemMeta) :
    WorkItemMeta :=
  { t with
    updatedAt := nowMs
    status := if input.success then WorkStatus.completed else WorkStatus.failed
    resultSummary := some (summarizeResult input.resultSummary)
    execution := some
      { executionTime := input.executionTime, toolsUsed := input.toolsUsed,
        modelCalls := input.modelCalls, success := input.success,
        errorMessage := input.errorMessage } }

/-- `finalizeLatestWorkItem` from `utils/work.ts` on the loaded work-item
store (`listWorkFiles` sorts by `createdAt` descending; persisting the
rewritten META file is modelled by replacing the item with the target's
`id`).  Returns the finalized item, if any, and the updated store. -/
def finalizeLatestWorkItem (items : List WorkItemMeta) (input : FinalizeWorkInput)
    (nowMs : Int) : Option WorkItemMeta × List WorkItemMeta :=
  let refs := stableSort (fun a b => decide (b.createdAt ≤ a.createdAt)) items
  if refs.length = 0 then (none, items)
  else
    let target0 := refs.find? (finalizeTargetPred input)
    let target :=
      match target0 with
      | some t => some t
      | none => refs.find? (finalizeFallbackPred input)
    match target with
    | none => (none, items)
    | some t =>
      let updated := finalizedItem input nowMs t
      (some updated, items.map (fun w => if w.id = t.id then updated else w))

/-- The five composite-key components a stored pattern carries
(`''` standing for an absent field, as in `buildPatternKey`). -/
def patternComponents (p : SuccessPattern) : String × String × String × String × String :=
  (p.task, p.method, p.toolCombo.getD "", p.project.getD "", complexityStr p.complexity)

/-- The composite key a stored pattern lives under. -/
def patternKey (p : SuccessPattern) : String :=
  buildPatternKey p.task p.method p.toolCombo p.project p.complexity

/-- The correspondence `recomputePatternsFromHistory`'s insertion-ordered
key map keeps with the pattern list an `updateSuccessPattern` replay
builds: same multiset of patterns, one entry per key, every entry keyed by
its own components, and every entry derived from some source-ledger row. -/
def RecomputeInv (Src : HistoryRow → Prop) (byKey : List (String × SuccessPattern))
    (pats : List SuccessPattern) : Prop :=
  pats.Perm (byKey.map Prod.snd) ∧
  (byKey.map Prod.fst).Nodup ∧
  (∀ kp ∈ byKey, kp.1 = patternKey kp.2) ∧
  (∀ kp ∈ byKey, ∃ r, Src r ∧ rowUsable r = true ∧ rowComponents r = patternComponents kp.2)

/-- A ledger row whose recorded intent contains the key separator `'|'`. -/
def collisionRow1 : HistoryRow :=
  { intent := some "a|b", agents := ["m"], status := some "completed",
    timestamp := some 0, rating := none, project := none, complexity := some "low",
    toolsUsed := [], result := none, executionTime := none, modelCalls := none }

/-- A ledger row whose agent name contains the key separator `'|'`,
joining to the same composite key as `collisionRow1` with different
components. -/
def collisionRow2 : HistoryRow :=
  { intent := some "a", agents := ["b|m"], status := some "completed",
    timestamp := some 0, rating := none, project := none, complexity := some "low",
    toolsUsed := [], result := none, executionTime := none, modelCalls := none }

/-- A plain completed ledger row. -/
def plainRow : HistoryRow :=
  { intent := some "t", agents := ["x"], status := some "completed",
    timestamp := some 0, rating := none, project := none, complexity := some "low",
    toolsUsed := [], result := none, executionTime := none, modelCalls := none }

/-! ## General lemmas about the list machinery -/

theorem orderedInsert_perm (le : α → α → Bool) (a : α) :
    ∀ l : List α, (orderedInsert le a l).Perm (a :: l)
  | [] => List.Perm.refl _
  | b :: l => by
    unfold orderedInsert
    split
    · exact List.Perm.refl _
    · exact ((orderedInsert_perm le a l).cons b).trans (List.Perm.swap a b l)

theorem stableSort_perm (le : α → α → Bool) :
    ∀ l : List α, (stableSort le l).Perm l
  | [] => List.Perm.refl _
  | a :: l => by
    unfold stableSort
    exact (orderedInsert_perm le a (stableSort le l)).trans ((stableSort_perm le l).cons a)

theorem length_stableSort (le : α → α → Bool) (l : List α) :
    (stableSort le l).length = l.length :=
  (stableSort_perm le l).length_eq

theorem mem_stableSort (le : α → α → Bool) (l : List α) (a : α) :
    a ∈ stableSort le l ↔ a ∈ l :=
  (stableSort_perm le l).mem_iff

theorem orderedInsert_of_le (le : α → α → Bool) (a b : α) (l : List α) (h : le a b = true) :
    orderedInsert le a (b :: l) = a :: b :: l := by
  unfold orderedInsert
  rw [if_pos h]

theorem stableSort_eq_self (le : α → α → Bool) :
    ∀ l : List α, l.Pairwise (fun a b => le a b = true) → stableSort le l = l
  | [] => fun _ => rfl
  | a :: l => fun h => by
    rw [List.pairwise_cons] at h
    unfold stableSort
    rw [stableSort_eq_self le l h.2]
    cases l with
    | nil => rfl
    | cons b l2 => exact orderedInsert_of_le le a b l2 (h.1 b (List.mem_cons_self _ _))

theorem orderedInsert_congr (le1 le2 : α → α → Bool) (a : α) :
    ∀ l : List α, (∀ b ∈ l, le1 a b = le2 a b) →
      orderedInsert le1 a l = orderedInsert le2 a l
  | [] => fun _ => rfl
  | b :: l => fun h => by
    unfold orderedInsert
    rw [h b (List.mem_cons_self _ _)]
    split
    · rfl
    · rw [orderedInsert_congr le1 le2 a l (fun c hc => h c (List.mem_cons_of_mem _ hc))]

theorem stableSort_congr (le1 le2 : α → α → Bool) :
    ∀ l : List α, (∀ a ∈ l, ∀ b ∈ l, le1 a b = le2 a b) →
      stableSort le1 l = stableSort le2 l
  | [] => fun _ => rfl
  | a :: l => fun h => by
    unfold stableSort
    rw [stableSort_congr le1 le2 l
      (fun x hx y hy => h x (List.mem_cons_of_mem _ hx) y (List.mem_cons_of_mem _ hy))]
    exact orderedInsert_congr le1 le2 a _ (fun b hb =>
      h a (List.mem_cons_self _ _) b
        (List.mem_cons_of_mem _ ((mem_stableSort le2 l b).mp hb)))

theorem foldl_congr_mem {α β : Type} (f g : α → β → α) :
    ∀ (l : List β) (init : α), (∀ acc, ∀ b ∈ l, f acc b = g acc b) →
      l.foldl f init = l.foldl g init
  | [], _, _ => rfl
  | b :: l, init, h => by
    simp only [List.foldl_cons]
    rw [h init b (List.mem_cons_self _ _)]
    exact foldl_congr_mem f g l _ (fun acc c hc => h acc c (List.mem_cons_of_mem _ hc))

theorem findIdx?_eq_none_iff (p : α → Bool) :
    ∀ l : List α, l.findIdx? p = none ↔ ∀ x ∈ l, p x = false
  | [] => by simp
  | a :: l => by
    rw [List.findIdx?_cons, List.findIdx?_succ]
    split
    · next h => simp [h]
    · next h =>
      have hf : p a = false := by
        cases hpa : p a
        · rfl
        · exact absurd hpa h
      simp [Option.map_eq_none', findIdx?_eq_none_iff p l, hf]

theorem findIdx?_some_spec (p : α → Bool) :
    ∀ (l : List α) (i : Nat), l.findIdx? p = some i →
      ∃ v, l[i]? = some v ∧ p v = true
  | [], i => by simp
  | a :: l, i => by
    rw [List.findIdx?_cons, List.findIdx?_succ]
    split
    · next h =>
      intro hi
      simp only [Option.some.injEq] at hi
      subst hi
      exact ⟨a, by simp, h⟩
    · next h =>
      intro hi
      rw [Option.map_eq_some'] at hi
      obtain ⟨j, hj, hji⟩ := hi
      obtain ⟨v, hv, hpv⟩ := findIdx?_some_spec p l j hj
      subst hji
      exact ⟨v, by rw [List.getElem?_cons_succ]; exact hv, hpv⟩

theorem findIdx?_isSome_of_mem (p : α → Bool) :
    ∀ (l : List α) (x : α), x ∈ l → p x = true → (l.findIdx? p).isSome = true
  | [], x, hx, _ => absurd hx (List.not_mem_nil _)
  | a :: l, x, hx, hp => by
    rw [List.findIdx?_cons, List.findIdx?_succ]
    split
    · rfl
    · next h =>
      rcases List.mem_cons.mp hx with hxa | hxl
      · subst hxa
        exact absurd hp h
      · have hrec := findIdx?_isSome_of_mem p l x hxl hp
        cases hfi : l.findIdx? p with
        | none => rw [hfi] at hrec; simp at hrec
        | some j => rfl

theorem lookup_eq_none_iff [BEq α] [LawfulBEq α] (k : α) :
    ∀ l : List (α × β), l.lookup k = none ↔ ∀ kv ∈ l, kv.1 ≠ k
  | [] => by simp
  | (k0, v0) :: l => by
    simp only [List.lookup]
    split
    · next h =>
      have hk : k = k0 := eq_of_beq h
      subst hk
      simp
    · next h =>
      have hk : ¬ k0 = k := by
        intro he
        subst he
        simp at h
      rw [lookup_eq_none_iff k l]
      constructor
      · intro hall kv hkv
        rcases List.mem_cons.mp hkv with h1 | h2
        · rw [h1]
          exact hk
        · exact hall kv h2
      · intro hall kv hkv
        exact hall kv (List.mem_cons_of_mem _ hkv)

theorem lookup_some_mem [BEq α] [LawfulBEq α] (k : α) (v : β) :
    ∀ l : List (α × β), l.lookup k = some v → (k, v) ∈ l
  | [] => by simp
  | (k0, v0) :: l => by
    simp only [List.lookup]
    split
    · next h =>
      intro hv
      simp only [Option.some.injEq] at hv
      have hk : k = k0 := eq_of_beq h
      subst hk hv
      exact List.mem_cons_self _ _
    · next h =>
      intro hv
      exact List.mem_cons_of_mem _ (lookup_some_mem k v l hv)

theorem lookup_isSome_of_mem [BEq α] [LawfulBEq α] (k : α) (v : β) :
    ∀ l : List (α × β), (k, v) ∈ l → (l.lookup k).isSome = true
  | [], hm => absurd hm (List.not_mem_nil _)
  | (k0, v0) :: l, hm => by
    simp only [List.lookup]
    split
    · rfl
    · next h =>
      rcases List.mem_cons.mp hm with h1 | h2
      · rw [Prod.mk.injEq] at h1
        rw [h1.1] at h
        simp at h
      · exact lookup_isSome_of_mem k v l h2

theorem lookup_eq_some_of_mem_nodup [BEq α] [LawfulBEq α] (k : α) (v : β) :
    ∀ l : List (α × β), (l.map Prod.fst).Nodup → (k, v) ∈ l → l.lookup k = some v
  | [], _, hm => absurd hm (List.not_mem_nil _)
  | (k0, v0) :: l, hnd, hm => by
    simp only [List.map_cons, List.nodup_cons] at hnd
    simp only [List.lookup]
    split
    · next h =>
      have hk : k = k0 := eq_of_beq h
      subst hk
      rcases List.mem_cons.mp hm with h1 | h2
      · rw [Prod.mk.injEq] at h1
        rw [h1.2]
      · exact absurd (List.mem_map_of_mem Prod.fst h2) hnd.1
    · next h =>
      rcases List.mem_cons.mp hm with h1 | h2
      · rw [Prod.mk.injEq] at h1
        rw [h1.1] at h
        simp at h
      · exact lookup_eq_some_of_mem_nodup k v l hnd.2 h2

theorem map_replace_of_lookup [DecidableEq α] [BEq α] [LawfulBEq α] (k : α) (next : β) :
    ∀ (l : List (α × β)) (cur : β), (l.map Prod.fst).Nodup → l.lookup k = some cur →
      ∃ l1 l2, l = l1 ++ (k, cur) :: l2 ∧
        l.map (fun kv => if kv.1 = k then (k, next) else kv) = l1 ++ (k, next) :: l2
  | [], cur, _, hl => by simp at hl
  | (k0, v0) :: l, cur, hnd, hl => by
    simp only [List.map_cons, List.nodup_cons] at hnd
    simp only [List.lookup] at hl
    by_cases hk : k = k0
    · subst hk
      simp only [beq_self_eq_true] at hl
      simp only [Option.some.injEq] at hl
      subst hl
      refine ⟨[], l, by simp, ?_⟩
      have hid : ∀ kv ∈ l, (fun kv : α × β => if kv.1 = k then (k, next) else kv) kv = kv := by
        intro kv hkv
        have hne : ¬ kv.1 = k := by
          intro he
          exact hnd.1 (he ▸ List.mem_map_of_mem Prod.fst hkv)
        simp [hne]
      simp only [List.map_cons, List.nil_append]
      rw [List.map_congr_left hid, List.map_id']
      simp
    · have hbeq : (k == k0) = false := beq_eq_false_iff_ne.mpr hk
      simp only [hbeq] at hl
      obtain ⟨l1, l2, he, hm⟩ := map_replace_of_lookup k next l cur hnd.2 hl
      refine ⟨(k0, v0) :: l1, l2, by rw [he, List.cons_append], ?_⟩
      simp only [List.map_cons]
      rw [if_neg (fun he2 => hk (Eq.symm he2)), hm, List.cons_append]

theorem perm_replace_middle {x y : α} (xs : List α) (i : Nat) (m1 m2 : List α)
    (hget : xs[i]? = some x) (hperm : xs.Perm (m1 ++ x :: m2)) :
    (xs.set i y).Perm (m1 ++ y :: m2) := by
  have hlt : i < xs.length := by
    by_contra hge
    rw [List.getElem?_eq_none (Nat.le_of_not_lt hge)] at hget
    cases hget
  have hx : xs[i] = x := by
    rw [List.getElem?_eq_getElem hlt] at hget
    exact Option.some.inj hget
  have h1 : xs = xs.take i ++ x :: xs.drop (i + 1) := by
    conv_lhs => rw [← List.take_append_drop i xs]
    rw [← List.get_drop_eq_drop xs i hlt, hx]
  have h2 : xs.set i y = xs.take i ++ y :: xs.drop (i + 1) := by
    rw [List.set_eq_take_append_cons_drop, if_pos hlt]
  have step1 : (x :: (xs.take i ++ xs.drop (i + 1))).Perm (xs.take i ++ x :: xs.drop (i + 1)) :=
    List.perm_middle.symm
  have step2 : (xs.take i ++ x :: xs.drop (i + 1)).Perm (m1 ++ x :: m2) := h1 ▸ hperm
  have hmid : (xs.take i ++ xs.drop (i + 1)).Perm (m1 ++ m2) :=
    ((step1.trans step2).trans List.perm_middle).cons_inv
  rw [h2]
  exact List.perm_middle.trans ((hmid.cons y).trans List.perm_middle.symm)

/-! ## Row-level bridge lemmas for the recompute/replay comparison -/

theorem rowTask_ne_empty (r : HistoryRow) : rowTask r ≠ "" := by
  unfold rowTask
  split
  · decide
  · next h => exact h

theorem toSignal_row (r : HistoryRow) : toSignal (rowToUpdateInput r) = historySignal r := by
  unfold toSignal historySignal rowToUpdateInput
  cases r.rating with
  | some q => rfl
  | none =>
    dsimp only
    split_ifs <;> rfl

theorem updateComplexity_row (r : HistoryRow) :
    updateComplexity (rowToUpdateInput r) = rowComplexity r := rfl

theorem updateMatches_row (r : HistoryRow) (p : SuccessPattern) :
    updateMatches (rowToUpdateInput r) p = true ↔ patternComponents p = rowComponents r := by
  unfold updateMatches
  rw [updateComplexity_row]
  simp only [Bool.and_eq_true, decide_eq_true_eq]
  unfold patternComponents rowComponents
  simp only [Prod.mk.injEq]
  constructor
  · rintro ⟨⟨⟨⟨h1, h2⟩, h3⟩, h4⟩, h5⟩
    exact ⟨h1, h2, h3, h4, h5⟩
  · rintro ⟨h1, h2, h3, h4, h5⟩
    exact ⟨⟨⟨⟨h1, h2⟩, h3⟩, h4⟩, h5⟩

theorem patternComponents_applyRow_none (now : Int) (r : HistoryRow) (s : PatternSignal) :
    patternComponents (applyRowToPattern now r s none) = rowComponents r := rfl

theorem patternComponents_applyRow_some (now : Int) (r : HistoryRow) (s : PatternSignal)
    (cur : SuccessPattern) (h : patternComponents cur = rowComponents r) :
    patternComponents (applyRowToPattern now r s (some cur)) = rowComponents r := by
  unfold patternComponents rowComponents at h ⊢
  simp only [Prod.mk.injEq] at h ⊢
  unfold applyRowToPattern
  exact ⟨h.1, h.2.1, rfl, rfl, rfl⟩

theorem patternKey_eq_rowKey (p : SuccessPattern) (r : HistoryRow)
    (h : patternComponents p = rowComponents r) : patternKey p = rowKey r := by
  unfold patternComponents rowComponents at h
  simp only [Prod.mk.injEq] at h
  unfold patternKey rowKey buildPatternKey
  rw [h.1, h.2.1, h.2.2.1, h.2.2.2.1, h.2.2.2.2]

theorem updateSuccessPattern_skip_method (realNow : Int) (r : HistoryRow)
    (pats : List SuccessPattern) (hm : rowMethod r = "") :
    (updateSuccessPattern realNow (rowToUpdateInput r) pats).2 = pats := by
  have hm2 : (rowToUpdateInput r).task = "" ∨ toMethod (rowToUpdateInput r).agents = "" :=
    Or.inr hm
  simp only [updateSuccessPattern]
  rw [if_pos hm2]

theorem updateSuccessPattern_skip_signal (realNow : Int) (r : HistoryRow)
    (pats : List SuccessPattern) (hs : historySignal r = none) :
    (updateSuccessPattern realNow (rowToUpdateInput r) pats).2 = pats := by
  have ht : toSignal (rowToUpdateInput r) = none := by rw [toSignal_row]; exact hs
  simp only [updateSuccessPattern, ht]
  split <;> rfl

theorem updateSuccessPattern_create (realNow : Int) (r : HistoryRow)
    (pats : List SuccessPattern) (sg : PatternSignal)
    (hm : ¬ rowMethod r = "") (hs : historySignal r = some sg)
    (hfind : pats.findIdx? (updateMatches (rowToUpdateInput r)) = none) :
    (updateSuccessPattern realNow (rowToUpdateInput r) pats).2 =
      (stableSort patternLe (pats ++ [applyRowToPattern realNow r sg none])).take 50 := by
  have ht : toSignal (rowToUpdateInput r) = some sg := by rw [toSignal_row]; exact hs
  have hguard : ¬ ((rowToUpdateInput r).task = "" ∨
      toMethod (rowToUpdateInput r).agents = "") := by
    rintro (h1 | h2)
    · exact rowTask_ne_empty r h1
    · exact hm h2
  simp only [updateSuccessPattern, ht, hfind]
  rw [if_neg hguard]
  rfl

theorem updateSuccessPattern_existing (realNow : Int) (r : HistoryRow)
    (pats : List SuccessPattern) (sg : PatternSignal) (i : Nat) (cur : SuccessPattern)
    (hm : ¬ rowMethod r = "") (hs : historySignal r = some sg)
    (hfind : pats.findIdx? (updateMatches (rowToUpdateInput r)) = some i)
    (hcur : pats[i]? = some cur) :
    (updateSuccessPattern realNow (rowToUpdateInput r) pats).2 =
      (stableSort patternLe
        (pats.set i (applyRowToPattern realNow r sg (some cur)))).take 50 := by
  have ht : toSignal (rowToUpdateInput r) = some sg := by rw [toSignal_row]; exact hs
  have hguard : ¬ ((rowToUpdateInput r).task = "" ∨
      toMethod (rowToUpdateInput r).agents = "") := by
    rintro (h1 | h2)
    · exact rowTask_ne_empty r h1
    · exact hm h2
  simp only [updateSuccessPattern, ht, hfind, hcur, Option.some_bind, Option.map_some']
  rw [if_neg hguard]
  rfl

theorem recomputeStep_skip_method (realNow : Int) (byKey : List (String × SuccessPattern))
    (r : HistoryRow) (hm : rowMethod r = "") :
    recomputeStep realNow byKey r = byKey := by
  simp [recomputeStep, hm]

theorem recomputeStep_skip_signal (realNow : Int) (byKey : List (String × SuccessPattern))
    (r : HistoryRow) (hm : ¬ rowMethod r = "") (hs : historySignal r = none) :
    recomputeStep realNow byKey r = byKey := by
  simp [recomputeStep, hm, hs]

theorem recomputeStep_create (realNow : Int) (byKey : List (String × SuccessPattern))
    (r : HistoryRow) (sg : PatternSignal)
    (hm : ¬ rowMethod r = "") (hs : historySignal r = some sg)
    (hl : byKey.lookup (rowKey r) = none) :
    recomputeStep realNow byKey r =
      byKey ++ [(rowKey r, applyRowToPattern realNow r sg none)] := by
  simp [recomputeStep, hm, hs, hl]

theorem recomputeStep_existing (realNow : Int) (byKey : List (String × SuccessPattern))
    (r : HistoryRow) (sg : PatternSignal) (cur : SuccessPattern)
    (hm : ¬ rowMethod r = "") (hs : historySignal r = some sg)
    (hl : byKey.lookup (rowKey r) = some cur) :
    recomputeStep realNow byKey r =
      byKey.map (fun kv => if kv.1 = rowKey r then
        (rowKey r, applyRowToPattern realNow r sg (some cur)) else kv) := by
  simp [recomputeStep, hm, hs, hl]

/-! ## C6 — hard-only override precedence -/

/-- C6: when the `only` flag is set and at least one included role survives
exclusion, `applyAgentConstraints` returns exactly the surviving included
set (first 4), bypassing the composed ranking: exclusion is applied to the
included set before the only-short-circuit. -/
theorem applyAgentConstraints_only_wins
    (rankedAgents baseAgents knownAgents : List String) (constraints : AgentConstraints)
    (honly : constraints.only = true)
    (hne : constraints.include.filter (fun a => !constraints.exclude.contains a) ≠ []) :
    applyAgentConstraints rankedAgents baseAgents constraints knownAgents =
      (constraints.include.filter (fun a => !constraints.exclude.contains a)).take 4 := by
  have hlen : 0 <
      (constraints.include.filter (fun a => !constraints.exclude.contains a)).length :=
    List.length_pos.mpr hne
  unfold applyAgentConstraints
  rw [if_pos ⟨by rw [honly], hlen⟩]

/-- C6 witness: `only = [researcher, writer]`, `exclude = [researcher]` (all
roles known) selects exactly `[writer]`. -/
theorem applyAgentConstraints_only_wins_witness :
    applyAgentConstraints ["engineer", "analyst"] ["researcher", "analyst"]
      { «include» := ["researcher", "writer"], exclude := ["researcher"], only := true }
      ["researcher", "writer", "engineer", "analyst"] = ["writer"] :=
  (applyAgentConstraints_only_wins _ _ _ _ rfl (by decide)).trans (by decide)

/-! ## C7 — project sub-score of the context-similarity scorer -/

/-- C7 (amended): the project sub-score is 1.0 when both sides have a
project and they match, 0.05 when both have one and they differ, 0.35 when
both are absent, and 0.25 — not 0.35 — when exactly one side is absent;
when the row's recorded intent mismatches the context intent the score is
additionally capped at 0.2. -/
theorem projectSimilarity_cases (ep cp : Option String) (sameIntent : Bool) :
    (∀ e c, normalizeProjectValue ep = some e → normalizeProjectValue cp = some c →
      projectSimilarity ep cp sameIntent =
        (if sameIntent then (if e = c then 1 else mkQ 5 100)
         else min (if e = c then 1 else mkQ 5 100) (mkQ 2 10))) ∧
    (normalizeProjectValue ep = none → normalizeProjectValue cp = none →
      projectSimilarity ep cp sameIntent =
        (if sameIntent then mkQ 35 100 else mkQ 2 10)) ∧
    ((normalizeProjectValue ep).isSome ≠ (normalizeProjectValue cp).isSome →
      projectSimilarity ep cp sameIntent =
        (if sameIntent then mkQ 25 100 else mkQ 2 10)) := by
  refine ⟨?_, ?_, ?_⟩
  · intro e c he hc
    unfold projectSimilarity
    rw [he, hc]
    cases sameIntent <;> simp [min]
  · intro he hc
    unfold projectSimilarity
    rw [he, hc]
    cases sameIntent <;> simp <;> decide
  · intro h
    unfold projectSimilarity
    cases he : normalizeProjectValue ep <;> cases hc : normalizeProjectValue cp
    · rw [he, hc] at h; simp at h
    · cases sameIntent <;> simp <;> decide
    · cases sameIntent <;> simp <;> decide
    · rw [he, hc] at h; simp at h

/-- C7 witness: a row with a project against a context without one scores
0.25 on matching intents and 0.2 under the cross-intent cap. -/
theorem projectSimilarity_cases_witness :
    projectSimilarity (some "alpha") none true = mkQ 25 100 ∧
      projectSimilarity (some "alpha") none false = mkQ 2 10 := by
  have h := (projectSimilarity_cases (some "alpha") none true).2.2 (by decide)
  have h' := (projectSimilarity_cases (some "alpha") none false).2.2 (by decide)
  exact ⟨h.trans (by decide), h'.trans (by decide)⟩

/-- C7 counterexample: with exactly one side lacking a project the code
scores 0.25, while the claim promises 0.35. -/
theorem projectSimilarity_one_absent_counterexample :
    projectSimilarity (some "alpha") none true = mkQ 25 100 ∧
      (mkQ 25 100 : Q) ≠ mkQ 35 100 := by decide

/-! ## C10 — first recompute is not blocked by the cooldown -/

/-- C10 (amended): with no `lastRunAt` recorded the cooldown gate is
skipped outright, so the decision never carries reason `cooldown`; with an
unparsable `lastRunAt` (treated as epoch 0) the same holds provided `now`
is at least `minIntervalMs` past the epoch — i.e. for every realistic
clock. -/
theorem decideRecompute_missing_lastRun_no_cooldown
    (counts : RecomputeCounts) (meta : SuccessPatternRecomputeMeta) (nowMs : Int)
    (force : Bool) (policy : SuccessPatternRecomputePolicy)
    (h : meta.lastRunAt = TsStr.absent ∨
      (meta.lastRunAt = TsStr.invalid ∧ policy.minIntervalMs ≤ nowMs)) :
    (decideRecompute counts meta nowMs force policy).reason ≠ "cooldown" := by
  have hip : (meta.lastRunAt = TsStr.absent ∨
      max 0 (nowMs - (match meta.lastRunAt with
        | .absent => 0 | .invalid => 0 | .valid ms => ms)) ≥ policy.minIntervalMs) := by
    rcases h with h | ⟨h1, h2⟩
    · exact Or.inl h
    · right
      rw [h1]
      dsimp only
      omega
  simp only [decideRecompute]
  split_ifs <;> simp_all

/-- C10 witness: a first-ever trigger state (no `lastRunAt`) does not
return `cooldown`. -/
theorem decideRecompute_missing_lastRun_no_cooldown_witness :
    (decideRecompute { historyCount := 1, ratedCount := 0 }
      { lastRunAt := .absent, lastHistoryCount := 1, lastRatedCount := 0 } 0 false
      SUCCESS_PATTERN_RECOMPUTE_POLICY).reason ≠ "cooldown" :=
  decideRecompute_missing_lastRun_no_cooldown _ _ _ _ _ (Or.inl rfl)

/-- C10 counterexample: an unparsable `lastRunAt` is parsed to epoch 0, so
with a clock less than `minIntervalMs` past the epoch the decision does
return `cooldown` — the claim's "never returns cooldown" fails on this
corner. -/
theorem decideRecompute_invalid_lastRun_cooldown_counterexample :
    decideRecompute { historyCount := 1, ratedCount := 0 }
      { lastRunAt := .invalid, lastHistoryCount := 1, lastRatedCount := 0 } 1000 false
      SUCCESS_PATTERN_RECOMPUTE_POLICY =
      { shouldRun := false, reason := "cooldown", deltaHistory := 0, deltaRated := 0 } := by
  decide

/-! ## C5 — recompute threshold boundary -/

/-- C5 (amended): with history present, no force flag, cooldown satisfied,
no reset, the rated delta below its threshold, a positive history threshold
and — the amendment — the no-cooldown force threshold strictly above the
history threshold, the decision flips from `threshold-not-met` (no run) at
`deltaHistory = historyDeltaThreshold - 1` to `history-threshold` (run) at
`deltaHistory = historyDeltaThreshold`, all else held constant.  (Without
the strictness amendment a validated policy with
`forceDeltaWithoutInterval = historyDeltaThreshold` answers
`history-force-threshold` instead.) -/
theorem decideRecompute_history_threshold_boundary
    (meta : SuccessPatternRecomputeMeta) (nowMs : Int)
    (policy : SuccessPatternRecomputePolicy) (ratedDelta : Nat)
    (hrated : ratedDelta < policy.ratedDeltaThreshold)
    (hforce : policy.historyDeltaThreshold < policy.forceDeltaWithoutInterval)
    (hthresh : 1 ≤ policy.historyDeltaThreshold)
    (hcool : meta.lastRunAt = TsStr.absent ∨
      max 0 (nowMs - (match meta.lastRunAt with
        | .absent => 0 | .invalid => 0 | .valid ms => ms)) ≥ policy.minIntervalMs)
    (hpos : 0 < meta.lastHistoryCount + (policy.historyDeltaThreshold - 1)) :
    decideRecompute
        { historyCount := meta.lastHistoryCount + (policy.historyDeltaThreshold - 1),
          ratedCount := meta.lastRatedCount + ratedDelta } meta nowMs false policy =
      { shouldRun := false, reason := "threshold-not-met",
        deltaHistory := policy.historyDeltaThreshold - 1, deltaRated := ratedDelta } ∧
    decideRecompute
        { historyCount := meta.lastHistoryCount + policy.historyDeltaThreshold,
          ratedCount := meta.lastRatedCount + ratedDelta } meta nowMs false policy =
      { shouldRun := true, reason := "history-threshold",
        deltaHistory := policy.historyDeltaThreshold, deltaRated := ratedDelta } := by
  simp only [decideRecompute]
  have hd1 : meta.lastHistoryCount + (policy.historyDeltaThreshold - 1) -
      meta.lastHistoryCount = policy.historyDeltaThreshold - 1 := by omega
  have hd2 : meta.lastHistoryCount + policy.historyDeltaThreshold -
      meta.lastHistoryCount = policy.historyDeltaThreshold := by omega
  have hr : meta.lastRatedCount + ratedDelta - meta.lastRatedCount = ratedDelta := by omega
  constructor
  · rw [if_neg (by omega)]
    rw [if_neg (by simp)]
    rw [if_neg (by omega)]
    rw [if_neg (by omega)]
    rw [if_neg (not_not.mpr hcool)]
    rw [if_neg (by omega)]
    rw [if_neg (by omega)]
    rw [if_neg (by omega)]
    simp [hd1, hr]
  · rw [if_neg (by omega)]
    rw [if_neg (by simp)]
    rw [if_neg (by omega)]
    rw [if_neg (by omega)]
    rw [if_neg (not_not.mpr hcool)]
    rw [if_neg (by omega)]
    rw [if_pos (by omega)]
    simp [hd2, hr]

/-- C5 witness: the boundary pair at the default thresholds, with
`lastHistoryCount = 5` and two rated entries pending. -/
theorem decideRecompute_history_threshold_boundary_witness :
    decideRecompute { historyCount := 5 + 29, ratedCount := 3 + 2 }
        { lastRunAt := .absent, lastHistoryCount := 5, lastRatedCount := 3 } 0 false
        SUCCESS_PATTERN_RECOMPUTE_POLICY =
      { shouldRun := false, reason := "threshold-not-met",
        deltaHistory := 29, deltaRated := 2 } ∧
    decideRecompute { historyCount := 5 + 30, ratedCount := 3 + 2 }
        { lastRunAt := .absent, lastHistoryCount := 5, lastRatedCount := 3 } 0 false
        SUCCESS_PATTERN_RECOMPUTE_POLICY =
      { shouldRun := true, reason := "history-threshold",
        deltaHistory := 30, deltaRated := 2 } :=
  decideRecompute_history_threshold_boundary
    { lastRunAt := .absent, lastHistoryCount := 5, lastRatedCount := 3 } 0
    SUCCESS_PATTERN_RECOMPUTE_POLICY 2 (by decide) (by decide) (by decide)
    (Or.inl rfl) (by decide)

/-- C5 counterexample: a trigger state satisfying every hypothesis the
claim lists (history present, no force, cooldown satisfied, no reset, rated
delta below threshold) whose policy — valid per the configuration loader's
bounds — has `forceDeltaWithoutInterval = historyDeltaThreshold = 30`: at
`deltaHistory = 30` the reason is `history-force-threshold`, not the
claimed `history-threshold`. -/
theorem decideRecompute_boundary_counterexample :
    decideRecompute { historyCount := 30, ratedCount := 0 }
      { lastRunAt := .absent, lastHistoryCount := 0, lastRatedCount := 0 } 0 false
      { historyDeltaThreshold := 30, ratedDeltaThreshold := 10,
        minIntervalMs := 900000, forceDeltaWithoutInterval := 30, maxPatterns := 50 } =
    { shouldRun := true, reason := "history-force-threshold",
      deltaHistory := 30, deltaRated := 0 } := by decide

/-! ## C3 — incremental signal derivation and decay-blend formula -/

/-- An existing pattern at rate 0.894 for the C3 rounding counterexample. -/
def roundingPattern : SuccessPattern :=
  { task := "research", method := "analyst", successRate := mkQ 894 1000, lastUsed := 0,
    sampleSize := 3, toolCombo := none, project := none, complexity := some .low }

/-- A rating-9 update event hitting `roundingPattern`'s composite key. -/
def roundingInput : UpdateSuccessPatternInput :=
  { task := "research", agents := ["analyst"], success := none, rating := some 9,
    timestamp := some 0, toolsUsed := [], project := none, complexity := some "low",
    prompt := none, result := none, executionTime := none, modelCalls := none,
    intent := none }

/-- C3 (amended): the signal is `(rating/10, 0.45)` for an integer rating
1–10, `(0.9 on success / 0.2 on failure, 0.25)` for a boolean flag, and
with neither the call is a no-op; when a pattern for the composite key
exists, the code stores `roundRate(decayedRate·(1-w) + score·w)` — the
blend clamped to `[0,1]` and rounded to 3 decimals, not the raw blend —
with `decayedRate = 0.5 + (old-0.5)·0.985^daysSince`,
`daysSince = (now - lastUsed)` in days, and increments `sampleSize`. -/
theorem updateSuccessPattern_signal_and_blend
    (realNow : Int) (input : UpdateSuccessPatternInput) (patterns : List SuccessPattern) :
    (∀ n : Nat, 1 ≤ n → n ≤ 10 → input.rating = some ⟨(n : Int), 1⟩ →
      toSignal input = some { score := mkQ n 10, weight := mkQ 45 100 }) ∧
    (∀ b, input.rating = none → input.success = some b →
      toSignal input =
        some { score := if b then mkQ 9 10 else mkQ 2 10, weight := mkQ 25 100 }) ∧
    (input.rating = none → input.success = none →
      updateSuccessPattern realNow input patterns = (none, patterns)) ∧
    (∀ signal i current, toSignal input = some signal →
      input.task ≠ "" → toMethod input.agents ≠ "" →
      patterns.findIdx? (updateMatches input) = some i →
      patterns[i]? = some current →
      (updateSuccessPattern realNow input patterns).1 = some
        { task := current.task, method := current.method,
          successRate := roundRate
            ((mkQ 1 2 + (current.successRate - mkQ 1 2) *
                pow0985 (getDaysBetween current.lastUsed
                  (normalizeDate input.timestamp realNow))) *
              (1 - signal.weight) + signal.score * signal.weight),
          lastUsed := normalizeDate input.timestamp realNow,
          sampleSize := (if current.sampleSize = 0 then 1 else current.sampleSize) + 1,
          toolCombo := normalizeToolCombo input.toolsUsed,
          project := normalizeProject input.project,
          complexity := updateComplexity input }) := by
  refine ⟨?_, ?_, ?_, ?_⟩
  · intro n h1 h10 hr
    interval_cases n <;> (unfold toSignal; rw [hr]; dsimp only; decide)
  · intro b hr hb
    unfold toSignal
    rw [hr, hb]
  · intro hr hs
    have hnone : toSignal input = none := by unfold toSignal; rw [hr, hs]
    simp only [updateSuccessPattern, hnone]
    split <;> rfl
  · intro signal i current hsig htask hmethod hfind hget
    unfold updateSuccessPattern
    rw [if_neg (by push_neg; exact ⟨htask, hmethod⟩)]
    simp only [hsig, hfind, Option.some_bind, hget, Option.map_some']
    rfl

/-- C3 witness: applying the update to `roundingPattern` with a rating-9
event at a zero-day gap stores exactly the rounded blend. -/
theorem updateSuccessPattern_signal_and_blend_witness :
    (updateSuccessPattern 0 roundingInput [roundingPattern]).1 = some
      { task := "research", method := "analyst", successRate := mkQ 897 1000,
        lastUsed := 0, sampleSize := 4, toolCombo := none, project := none,
        complexity := some .low } :=
  ((updateSuccessPattern_signal_and_blend 0 roundingInput [roundingPattern]).2.2.2
    { score := mkQ 9 10, weight := mkQ 45 100 } 0 roundingPattern
    (by decide) (by decide) (by decide) (by decide) (by decide)).trans (by decide)

/-- C3 counterexample: on `roundingPattern` (rate 0.894) a rating-9 event
with a zero-day gap yields the raw blend `0.894·0.55 + 0.9·0.45 = 0.8967`,
but the code stores the rounded `0.897` — the stored rate does not equal
`decayedRate·(1-weight) + score·weight` as claimed. -/
theorem updateSuccessPattern_rounding_counterexample :
    ((updateSuccessPattern 0 roundingInput [roundingPattern]).1.map
        SuccessPattern.successRate) = some (mkQ 897 1000) ∧
      (mkQ 897 1000 : Q) ≠
        (mkQ 1 2 + (mkQ 894 1000 - mkQ 1 2) * pow0985 (getDaysBetween 0 0)) *
            (1 - mkQ 45 100) + mkQ 9 10 * mkQ 45 100 := by decide

/-! ## C8 — top-level selection never throws, degrades to the fixed fallback -/

/-- C8: `handleBeforeAgent` is total — every run produces an output — and
whenever any internal step of the pipeline fails, the caller receives the
default two-role fallback team `["engineer", "analyst"]` with an empty
injected context and the prompt passed through unchanged. -/
theorem handleBeforeAgent_never_throws (steps : BeforeAgentSteps)
    (input : BeforeAgentInput) :
    (∀ e, runBeforeAgentBody steps input = .error e →
      handleBeforeAgent steps input =
        { modifiedPrompt := input.prompt, injectedContext := "",
          suggestedAgents := ["engineer", "analyst"], systemInstructions := "" }) ∧
    (∀ out, runBeforeAgentBody steps input = .ok out →
      handleBeforeAgent steps input = out) := by
  constructor
  · intro e he
    unfold handleBeforeAgent
    rw [he]
    rfl
  · intro out ho
    unfold handleBeforeAgent
    rw [ho]

/-- A collaborator environment whose intent-to-roles lookup fails (the
configuration is unreadable); every other step succeeds. -/
def failingConfigSteps : BeforeAgentSteps :=
  { availableAgentIds := ["engineer", "analyst"]
    captureFeedbackSignal := fun _ _ => .ok none
    applyTelosUpdates := fun _ => .ok ()
    analyzeIntent := fun _ => .ok "analysis"
    parseAgentConstraints := fun _ _ => { «include» := [], exclude := [], only := false }
    selectAgentsByIntent := fun _ => .error "config unreadable"
    loadTelosProfile := .ok { preferredAgents := [] }
    ensureTelosGoal := fun _ => .ok false
    detectRelevantProjects := fun _ _ => []
    inferLikelyTools := fun _ => []
    readMemoryEntries := .ok []
    loadSuccessPatterns := .ok []
    readHistoryEntries := .ok []
    buildSimilaritySignal := fun _ _ _ => .ok { agentScoreBoost := [], topCases := [] }
    scoreAgents := fun _ _ _ _ _ _ _ _ _ => .ok { rankedAgents := [], scoreByAgent := [] }
    createWorkItem := fun _ _ _ _ => .ok ()
    retrieveRelevantMemory := fun _ _ => .ok ""
    buildPreferenceSummary := fun _ _ => .ok ""
    generateSystemInstructions := fun _ _ _ => .ok ""
    buildModifiedPrompt := fun _ _ _ => .ok "" }

/-- C8 witness: with the role-mapping step failing, the hook answers the
fallback team and empty context instead of propagating the error. -/
theorem handleBeforeAgent_never_throws_witness :
    handleBeforeAgent failingConfigSteps { prompt := "hello", sessionId := "s" } =
      { modifiedPrompt := "hello", injectedContext := "",
        suggestedAgents := ["engineer", "analyst"], systemInstructions := "" } :=
  (handleBeforeAgent_never_throws failingConfigSteps
    { prompt := "hello", sessionId := "s" }).1 "config unreadable" (by rfl)

/-! ## Sortedness of the stable sort (for the targeting proofs) -/

theorem mem_orderedInsert (le : α → α → Bool) (a x : α) (l : List α) :
    x ∈ orderedInsert le a l ↔ x = a ∨ x ∈ l := by
  rw [(orderedInsert_perm le a l).mem_iff]
  simp

theorem orderedInsert_pairwise (le : α → α → Bool)
    (htrans : ∀ a b c, le a b = true → le b c = true → le a c = true)
    (htot : ∀ a b, le a b = true ∨ le b a = true) (a : α) (l : List α)
    (h : l.Pairwise (fun x y => le x y = true)) :
    (orderedInsert le a l).Pairwise (fun x y => le x y = true) := by
  revert h
  induction l with
  | nil => intro h; simp [orderedInsert]
  | cons b t ih =>
    intro h
    rw [List.pairwise_cons] at h
    unfold orderedInsert
    split
    case isTrue hab =>
      refine List.pairwise_cons.mpr ⟨fun y hy => ?_, List.pairwise_cons.mpr h⟩
      rcases List.mem_cons.mp hy with rfl | hyl
      · exact hab
      · exact htrans a b y hab (h.1 y hyl)
    case isFalse hab =>
      refine List.pairwise_cons.mpr ⟨fun y hy => ?_, ih h.2⟩
      rcases (mem_orderedInsert le a y t).mp hy with rfl | hyl
      · rcases htot y b with hab2 | hba
        · exact absurd hab2 hab
        · exact hba
      · exact h.1 y hyl

theorem stableSort_pairwise (le : α → α → Bool)
    (htrans : ∀ a b c, le a b = true → le b c = true → le a c = true)
    (htot : ∀ a b, le a b = true ∨ le b a = true) :
    ∀ l : List α, (stableSort le l).Pairwise (fun x y => le x y = true)
  | [] => List.Pairwise.nil
  | a :: l => by
    unfold stableSort
    exact orderedInsert_pairwise le htrans htot a _ (stableSort_pairwise le htrans htot l)

/-- The first element a `find?` returns in a `Pairwise`-ordered list is
related to every other element satisfying the predicate. -/
theorem find?_max_of_pairwise {R : α → α → Prop} {p : α → Bool} :
    ∀ {l : List α} {x : α}, l.Pairwise R → l.find? p = some x →
      ∀ y ∈ l, p y = true → y = x ∨ R x y := by
  intro l
  induction l with
  | nil => intro x _ hf; simp [List.find?] at hf
  | cons a t ih =>
    intro x hpw hf y hy hpy
    rw [List.pairwise_cons] at hpw
    by_cases hpa : p a = true
    · rw [List.find?_cons_of_pos _ hpa] at hf
      cases hf
      rcases List.mem_cons.mp hy with rfl | hyt
      · exact Or.inl rfl
      · exact Or.inr (hpw.1 y hyt)
    · rw [List.find?_cons_of_neg _ (by simpa using hpa)] at hf
      rcases List.mem_cons.mp hy with rfl | hyt
      · exact absurd hpy hpa
      · exact ih hpw.2 hf y hyt hpy

/-! ## C9 — finalization targeting -/

/-- C9 (amended): when `finalizeLatestWorkItem` finalizes an item, that
item is the most recent (by `createdAt`) in-progress item matching the
request's session — or, when no in-progress item matches, the most recent
item of the request's session regardless of its status (so an already
completed item can be re-finalized; there is no fallback to in-progress
items of other sessions).  The finalized copy's status is `completed` or
`failed` according to the success flag. -/
theorem finalizeLatestWorkItem_targeting
    (items : List WorkItemMeta) (input : FinalizeWorkInput) (nowMs : Int)
    (t : WorkItemMeta)
    (h : (finalizeLatestWorkItem items input nowMs).1 = some t) :
    t.status = (if input.success then WorkStatus.completed else WorkStatus.failed) ∧
    ∃ orig ∈ items, t = finalizedItem input nowMs orig ∧
      ((finalizeTargetPred input orig = true ∧
          ∀ w ∈ items, finalizeTargetPred input w = true → w.createdAt ≤ orig.createdAt) ∨
        ((∀ w ∈ items, finalizeTargetPred input w = false) ∧
          finalizeFallbackPred input orig = true ∧
          ∀ w ∈ items, finalizeFallbackPred input w = true →
            w.createdAt ≤ orig.createdAt)) := by
  have htrans : ∀ a b c : WorkItemMeta, decide (b.createdAt ≤ a.createdAt) = true →
      decide (c.createdAt ≤ b.createdAt) = true →
      decide (c.createdAt ≤ a.createdAt) = true := by
    intro a b c h1 h2
    simp only [decide_eq_true_eq] at *
    omega
  have htot : ∀ a b : WorkItemMeta, decide (b.createdAt ≤ a.createdAt) = true ∨
      decide (a.createdAt ≤ b.createdAt) = true := by
    intro a b
    simp only [decide_eq_true_eq]
    omega
  set refs := stableSort (fun a b => decide (b.createdAt ≤ a.createdAt)) items with hrefs
  have hperm := stableSort_perm (fun a b : WorkItemMeta => decide (b.createdAt ≤ a.createdAt))
    items
  have hpw := stableSort_pairwise (fun a b : WorkItemMeta => decide (b.createdAt ≤ a.createdAt))
    htrans htot items
  rw [← hrefs] at hperm hpw
  have hmax : ∀ (p : WorkItemMeta → Bool) (x : WorkItemMeta), refs.find? p = some x →
      (p x = true ∧ x ∈ items ∧
        ∀ w ∈ items, p w = true → w.createdAt ≤ x.createdAt) := by
    intro p x hf
    refine ⟨List.find?_some hf, hperm.mem_iff.mp (List.mem_of_find?_eq_some hf), ?_⟩
    intro w hw hpw2
    rcases find?_max_of_pairwise hpw hf w (hperm.mem_iff.mpr hw) hpw2 with rfl | hle
    · omega
    · simpa using hle
  unfold finalizeLatestWorkItem at h
  rw [← hrefs] at h
  by_cases h0 : refs.length = 0
  · rw [if_pos h0] at h
    exact absurd h (by simp)
  · rw [if_neg h0] at h
    cases hf : refs.find? (finalizeTargetPred input) with
    | some t0 =>
      simp only [hf] at h
      cases h
      obtain ⟨hp, hmem, hle⟩ := hmax _ _ hf
      refine ⟨rfl, t0, hmem, rfl, Or.inl ⟨hp, hle⟩⟩
    | none =>
      simp only [hf] at h
      cases hg : refs.find? (finalizeFallbackPred input) with
      | some t1 =>
        simp only [hg] at h
        cases h
        obtain ⟨hp, hmem, hle⟩ := hmax _ _ hg
        have hnone : ∀ w ∈ items, finalizeTargetPred input w = false := by
          intro w hw
          have := List.find?_eq_none.mp hf w (hperm.mem_iff.mpr hw)
          simpa using this
        refine ⟨rfl, t1, hmem, rfl, Or.inr ⟨hnone, hp, hle⟩⟩
      | none =>
        simp only [hg] at h
        exact absurd h (by simp)

/-- The single in-progress work item of the C9 witness store. -/
def witnessItem : WorkItemMeta :=
  { id := "w1", sessionId := "a", prompt := "p", intent := "analysis", project := none,
    complexity := none, createdAt := 100, updatedAt := 100,
    status := WorkStatus.inProgress, agents := ["engineer"], execution := none,
    resultSummary := none }

/-- The C9 witness finalization request (session `a`, success). -/
def witnessFinalize : FinalizeWorkInput :=
  { sessionId := some "a", success := true, executionTime := 1, toolsUsed := [],
    modelCalls := 1, errorMessage := none, resultSummary := "done" }

/-- C9 witness: finalizing session `a` on a one-item store targets that
in-progress item and stamps it `completed`. -/
theorem finalizeLatestWorkItem_targeting_witness :
    (finalizedItem witnessFinalize 200 witnessItem).status =
      (if witnessFinalize.success then WorkStatus.completed else WorkStatus.failed) ∧
    ∃ orig ∈ [witnessItem],
      finalizedItem witnessFinalize 200 witnessItem = finalizedItem witnessFinalize 200 orig ∧
      ((finalizeTargetPred witnessFinalize orig = true ∧
          ∀ w ∈ [witnessItem], finalizeTargetPred witnessFinalize w = true →
            w.createdAt ≤ orig.createdAt) ∨
        ((∀ w ∈ [witnessItem], finalizeTargetPred witnessFinalize w = false) ∧
          finalizeFallbackPred witnessFinalize orig = true ∧
          ∀ w ∈ [witnessItem], finalizeFallbackPred witnessFinalize w = true →
            w.createdAt ≤ orig.createdAt)) :=
  finalizeLatestWorkItem_targeting [witnessItem] witnessFinalize 200 _ (by decide)

/-- C9 counterexample: the only in-progress item lives in session `a`, but
a finalization request for session `b` returns `none` and leaves the store
untouched — there is no fallback to "the most recent in-progress item
overall" as claimed; and a second part: a completed session-`a` item is
re-finalized by a later failure request, flipping `completed` to `failed`,
contradicting "finalized exactly once, never re-opened". -/
theorem finalizeLatestWorkItem_counterexample :
    (finalizeLatestWorkItem
        [{ id := "w1", sessionId := "a", prompt := "p", intent := "analysis",
            project := none, complexity := none, createdAt := 100, updatedAt := 100,
            status := WorkStatus.inProgress, agents := ["engineer"], execution := none,
            resultSummary := none }]
        { sessionId := some "b", success := true, executionTime := 1, toolsUsed := [],
          modelCalls := 1, errorMessage := none, resultSummary := "done" } 200).1 = none ∧
    ((finalizeLatestWorkItem
        [{ id := "w1", sessionId := "a", prompt := "p", intent := "analysis",
            project := none, complexity := none, createdAt := 100, updatedAt := 100,
            status := WorkStatus.completed, agents := ["engineer"], execution := none,
            resultSummary := none }]
        { sessionId := some "a", success := false, executionTime := 1, toolsUsed := [],
          modelCalls := 1, errorMessage := none, resultSummary := "redo" } 200).1.map
      WorkItemMeta.status) = some WorkStatus.failed := by decide

/-! ## C4 — rotation conservation and idempotence -/

theorem dedupeEntriesAux_eq_self (seen : List String) (l : List MemoryEntry)
    (hdisj : ∀ e ∈ l, memoryIdentity e ∉ seen)
    (hnodup : (l.map memoryIdentity).Nodup) :
    dedupeEntriesAux seen l = l := by
  induction l generalizing seen with
  | nil => rfl
  | cons e rest ih =>
    unfold dedupeEntriesAux
    rw [if_neg (hdisj e (List.mem_cons_self e rest))]
    rw [List.map_cons, List.nodup_cons] at hnodup
    rw [ih (memoryIdentity e :: seen) ?_ hnodup.2]
    intro x hx
    rw [List.mem_cons]
    push_neg
    refine ⟨?_, hdisj x (List.mem_cons_of_mem e hx)⟩
    intro hid
    exact hnodup.1 (hid ▸ List.mem_map_of_mem memoryIdentity hx)

theorem dedupeEntries_eq_self (l : List MemoryEntry)
    (hnodup : (l.map memoryIdentity).Nodup) :
    dedupeEntries l = l :=
  dedupeEntriesAux_eq_self [] l (by simp) hnodup

theorem rotateHotStage_overflow (tokenUsage maxTokens : Q) (l : List MemoryEntry)
    (k : Nat) (hk : 0 < k) (hlen : l.length = 20 + k) :
    rotateHotStage tokenUsage maxTokens l = (l.take k, l.drop k) := by
  unfold rotateHotStage
  rw [if_pos ⟨Or.inl (by simp [PRECOMPRESS_POLICY, hlen]; omega),
    by simp [PRECOMPRESS_POLICY, hlen]; omega⟩]
  have : l.length - PRECOMPRESS_POLICY.hotKeepCount = k := by
    simp [PRECOMPRESS_POLICY, hlen]
  rw [this]

theorem rotateHotStage_fits (tokenUsage maxTokens : Q) (l : List MemoryEntry)
    (hlen : l.length ≤ 20) :
    rotateHotStage tokenUsage maxTokens l = ([], l) := by
  unfold rotateHotStage
  rw [if_neg ?_]
  intro ⟨_, habs⟩
  simp [PRECOMPRESS_POLICY] at habs
  omega

theorem rotateWarmStage_fresh (nowMs : Int) (warmEntries hotToWarm : List MemoryEntry)
    (hnodup : ((warmEntries ++ hotToWarm).map memoryIdentity).Nodup)
    (hrecent : ∀ e ∈ warmEntries ++ hotToWarm,
      isOlderThanDays e PRECOMPRESS_POLICY.warmRetentionDays nowMs = false)
    (hlen : (warmEntries ++ hotToWarm).length ≤ 300) :
    rotateWarmStage nowMs warmEntries hotToWarm =
      ([], stableSort entryTsLe (warmEntries ++ hotToWarm)) := by
  have hperm := stableSort_perm entryTsLe (warmEntries ++ hotToWarm)
  simp only [rotateWarmStage]
  rw [dedupeEntries_eq_self _ hnodup]
  have hage : (stableSort entryTsLe (warmEntries ++ hotToWarm)).filter
      (fun e => isOlderThanDays e PRECOMPRESS_POLICY.warmRetentionDays nowMs) = [] := by
    rw [List.filter_eq_nil]
    intro e he
    simp [hrecent e (hperm.mem_iff.mp he)]
  have hrec : (stableSort entryTsLe (warmEntries ++ hotToWarm)).filter
      (fun e => !isOlderThanDays e PRECOMPRESS_POLICY.warmRetentionDays nowMs) =
      stableSort entryTsLe (warmEntries ++ hotToWarm) := by
    rw [List.filter_eq_self]
    intro e he
    simp [hrecent e (hperm.mem_iff.mp he)]
  rw [hage, hrec]
  have hov : (stableSort entryTsLe (warmEntries ++ hotToWarm)).length -
      PRECOMPRESS_POLICY.warmMaxCount = 0 := by
    rw [length_stableSort]
    simp only [PRECOMPRESS_POLICY]
    omega
  rw [hov]
  simp [dedupeEntries, dedupeEntriesAux, stableSort]

theorem rotateColdStage_empty :
    rotateColdStage [] [] = (0, []) := by decide

/-- C4 (amended): for hot entries `H` with `|H| = hotKeep + k`
(`0 < k ≤ warmMaxCount`), pairwise-distinct identities, all within the
warm-retention window, and empty warm/cold tiers, one rotation leaves
exactly `hotKeep = 20` entries in hot and `k` in warm with nothing in cold
(no loss), and an immediate re-run moves nothing: sizes stay `20`/`k`/`0`
and all three reported move counts are zero.  (Without the freshness,
distinctness and `k ≤ warmMaxCount` side conditions the claimed `|warm'| =
k` fails: aged or duplicated entries continue to cold.) -/
theorem rotateTiers_conservation_idempotent (nowMs : Int) (tokenUsage maxTokens : Q)
    (hot : List MemoryEntry) (k : Nat)
    (hk : 0 < k) (hk300 : k ≤ 300)
    (hlen : hot.length = 20 + k)
    (hnodup : (hot.map memoryIdentity).Nodup)
    (hrecent : ∀ e ∈ hot, isOlderThanDays e 21 nowMs = false) :
    ((rotateTiers nowMs tokenUsage maxTokens hot [] []).nextHot.length = 20 ∧
      (rotateTiers nowMs tokenUsage maxTokens hot [] []).nextWarm.length = k ∧
      (rotateTiers nowMs tokenUsage maxTokens hot [] []).nextCold = []) ∧
    ((rotateTiers nowMs tokenUsage maxTokens
        (rotateTiers nowMs tokenUsage maxTokens hot [] []).nextHot
        (rotateTiers nowMs tokenUsage maxTokens hot [] []).nextWarm
        (rotateTiers nowMs tokenUsage maxTokens hot [] []).nextCold).nextHot.length = 20 ∧
      (rotateTiers nowMs tokenUsage maxTokens
        (rotateTiers nowMs tokenUsage maxTokens hot [] []).nextHot
        (rotateTiers nowMs tokenUsage maxTokens hot [] []).nextWarm
        (rotateTiers nowMs tokenUsage maxTokens hot [] []).nextCold).nextWarm.length = k ∧
      (rotateTiers nowMs tokenUsage maxTokens
        (rotateTiers nowMs tokenUsage maxTokens hot [] []).nextHot
        (rotateTiers nowMs tokenUsage maxTokens hot [] []).nextWarm
        (rotateTiers nowMs tokenUsage maxTokens hot [] []).nextCold).hotToWarmCount = 0 ∧
      (rotateTiers nowMs tokenUsage maxTokens
        (rotateTiers nowMs tokenUsage maxTokens hot [] []).nextHot
        (rotateTiers nowMs tokenUsage maxTokens hot [] []).nextWarm
        (rotateTiers nowMs tokenUsage maxTokens hot [] []).nextCold).warmToColdCount = 0 ∧
      (rotateTiers nowMs tokenUsage maxTokens
        (rotateTiers nowMs tokenUsage maxTokens hot [] []).nextHot
        (rotateTiers nowMs tokenUsage maxTokens hot [] []).nextWarm
        (rotateTiers nowMs tokenUsage maxTokens hot [] []).nextCold).coldPrunedCount = 0) := by
  have hperm := stableSort_perm entryTsLe hot
  have hsortlen : (stableSort entryTsLe hot).length = 20 + k := by
    rw [length_stableSort, hlen]
  have hsortnodup : ((stableSort entryTsLe hot).map memoryIdentity).Nodup :=
    ((hperm.map memoryIdentity).nodup_iff).mpr hnodup
  have htakenodup : ((([] : List MemoryEntry) ++
      (stableSort entryTsLe hot).take k).map memoryIdentity).Nodup := by
    rw [List.nil_append]
    exact hsortnodup.sublist ((List.take_sublist k _).map memoryIdentity)
  have htakemem : ∀ e ∈ ([] : List MemoryEntry) ++ (stableSort entryTsLe hot).take k,
      isOlderThanDays e PRECOMPRESS_POLICY.warmRetentionDays nowMs = false := by
    intro e he
    rw [List.nil_append] at he
    exact hrecent e (hperm.mem_iff.mp ((List.take_sublist k _).mem he))
  have htakelen : ((stableSort entryTsLe hot).take k).length = k := by
    rw [List.length_take, hsortlen]
    omega
  have hr1 : rotateTiers nowMs tokenUsage maxTokens hot [] [] =
      { nextHot := (stableSort entryTsLe hot).drop k,
        nextWarm := stableSort entryTsLe ((stableSort entryTsLe hot).take k),
        nextCold := [],
        hotToWarmCount := k, warmToColdCount := 0, coldPrunedCount := 0 } := by
    simp only [rotateTiers]
    rw [show stableSort entryTsLe ([] : List MemoryEntry) = [] from rfl]
    rw [rotateHotStage_overflow tokenUsage maxTokens _ k hk hsortlen]
    dsimp only
    rw [rotateWarmStage_fresh nowMs [] _ htakenodup htakemem
      (by rw [List.nil_append, htakelen]; exact hk300)]
    dsimp only
    rw [rotateColdStage_empty]
    simp [htakelen]
  have hwarm1len : (stableSort entryTsLe ((stableSort entryTsLe hot).take k)).length = k := by
    rw [length_stableSort, htakelen]
  have hhot1len : ((stableSort entryTsLe hot).drop k).length = 20 := by
    rw [List.length_drop, hsortlen]
    omega
  refine ⟨⟨by rw [hr1]; exact hhot1len, by rw [hr1]; exact hwarm1len, by rw [hr1]⟩, ?_⟩
  rw [hr1]
  have htake0 : (((stableSort entryTsLe hot).take k).map memoryIdentity).Nodup := by
    have := htakenodup
    rwa [List.nil_append] at this
  have hpermw := stableSort_perm entryTsLe ((stableSort entryTsLe hot).take k)
  have hpermw2 := stableSort_perm entryTsLe
    (stableSort entryTsLe ((stableSort entryTsLe hot).take k))
  have hw2nodup : ((stableSort entryTsLe
      (stableSort entryTsLe ((stableSort entryTsLe hot).take k)) ++
      ([] : List MemoryEntry)).map memoryIdentity).Nodup := by
    rw [List.append_nil]
    exact ((hpermw2.map memoryIdentity).nodup_iff).mpr
      (((hpermw.map memoryIdentity).nodup_iff).mpr htake0)
  have hw2mem : ∀ e ∈ stableSort entryTsLe
      (stableSort entryTsLe ((stableSort entryTsLe hot).take k)) ++
      ([] : List MemoryEntry),
      isOlderThanDays e PRECOMPRESS_POLICY.warmRetentionDays nowMs = false := by
    intro e he
    rw [List.append_nil] at he
    refine htakemem e ?_
    rw [List.nil_append]
    exact hpermw.mem_iff.mp (hpermw2.mem_iff.mp he)
  have hsort2len : (stableSort entryTsLe ((stableSort entryTsLe hot).drop k)).length = 20 := by
    rw [length_stableSort]
    exact hhot1len
  have hr2 : rotateTiers nowMs tokenUsage maxTokens ((stableSort entryTsLe hot).drop k)
      (stableSort entryTsLe ((stableSort entryTsLe hot).take k)) [] =
      { nextHot := stableSort entryTsLe ((stableSort entryTsLe hot).drop k),
        nextWarm := stableSort entryTsLe (stableSort entryTsLe
          (stableSort entryTsLe ((stableSort entryTsLe hot).take k)) ++
          ([] : List MemoryEntry)),
        nextCold := [],
        hotToWarmCount := 0, warmToColdCount := 0, coldPrunedCount := 0 } := by
    simp only [rotateTiers]
    rw [show stableSort entryTsLe ([] : List MemoryEntry) = [] from rfl]
    rw [rotateHotStage_fits tokenUsage maxTokens _ (le_of_eq hsort2len)]
    dsimp only
    rw [rotateWarmStage_fresh nowMs _ [] hw2nodup hw2mem
      (by rw [List.append_nil, length_stableSort, length_stableSort, htakelen]
          exact hk300)]
    dsimp only
    rw [rotateColdStage_empty]
    simp
  rw [hr2]
  refine ⟨hsort2len, ?_, rfl, rfl, rfl⟩
  rw [length_stableSort, List.append_nil, length_stableSort, length_stableSort, htakelen]

/-- The `n`-th fresh, identity-distinct hot entry of the C4 inputs. -/
def freshEntry (n : Nat) (ts : Int) : MemoryEntry :=
  { id := toString n, type := "task_result", sessionId := some "s", intent := none,
    content := "entry " ++ toString n, rating := none, timestamp := ts }

/-- C4 witness: 21 fresh, distinct hot entries rotate to 20 hot / 1 warm,
and the immediate re-run moves nothing. -/
theorem rotateTiers_conservation_idempotent_witness :
    ((rotateTiers 2000000000000 0 1000000
        ((List.range 21).map (fun n => freshEntry n (2000000000000 - (n : Int) - 1)))
        [] []).nextHot.length = 20 ∧
      (rotateTiers 2000000000000 0 1000000
        ((List.range 21).map (fun n => freshEntry n (2000000000000 - (n : Int) - 1)))
        [] []).nextWarm.length = 1 ∧
      (rotateTiers 2000000000000 0 1000000
        ((List.range 21).map (fun n => freshEntry n (2000000000000 - (n : Int) - 1)))
        [] []).nextCold = []) ∧
    ((rotateTiers 2000000000000 0 1000000
        (rotateTiers 2000000000000 0 1000000
          ((List.range 21).map (fun n => freshEntry n (2000000000000 - (n : Int) - 1)))
          [] []).nextHot
        (rotateTiers 2000000000000 0 1000000
          ((List.range 21).map (fun n => freshEntry n (2000000000000 - (n : Int) - 1)))
          [] []).nextWarm
        (rotateTiers 2000000000000 0 1000000
          ((List.range 21).map (fun n => freshEntry n (2000000000000 - (n : Int) - 1)))
          [] []).nextCold).nextHot.length = 20 ∧
      (rotateTiers 2000000000000 0 1000000
        (rotateTiers 2000000000000 0 1000000
          ((List.range 21).map (fun n => freshEntry n (2000000000000 - (n : Int) - 1)))
          [] []).nextHot
        (rotateTiers 2000000000000 0 1000000
          ((List.range 21).map (fun n => freshEntry n (2000000000000 - (n : Int) - 1)))
          [] []).nextWarm
        (rotateTiers 2000000000000 0 1000000
          ((List.range 21).map (fun n => freshEntry n (2000000000000 - (n : Int) - 1)))
          [] []).nextCold).nextWarm.length = 1 ∧
      (rotateTiers 2000000000000 0 1000000
        (rotateTiers 2000000000000 0 1000000
          ((List.range 21).map (fun n => freshEntry n (2000000000000 - (n : Int) - 1)))
          [] []).nextHot
        (rotateTiers 2000000000000 0 1000000
          ((List.range 21).map (fun n => freshEntry n (2000000000000 - (n : Int) - 1)))
          [] []).nextWarm
        (rotateTiers 2000000000000 0 1000000
          ((List.range 21).map (fun n => freshEntry n (2000000000000 - (n : Int) - 1)))
          [] []).nextCold).hotToWarmCount = 0 ∧
      (rotateTiers 2000000000000 0 1000000
        (rotateTiers 2000000000000 0 1000000
          ((List.range 21).map (fun n => freshEntry n (2000000000000 - (n : Int) - 1)))
          [] []).nextHot
        (rotateTiers 2000000000000 0 1000000
          ((List.range 21).map (fun n => freshEntry n (2000000000000 - (n : Int) - 1)))
          [] []).nextWarm
        (rotateTiers 2000000000000 0 1000000
          ((List.range 21).map (fun n => freshEntry n (2000000000000 - (n : Int) - 1)))
          [] []).nextCold).warmToColdCount = 0 ∧
      (rotateTiers 2000000000000 0 1000000
        (rotateTiers 2000000000000 0 1000000
          ((List.range 21).map (fun n => freshEntry n (2000000000000 - (n : Int) - 1)))
          [] []).nextHot
        (rotateTiers 2000000000000 0 1000000
          ((List.range 21).map (fun n => freshEntry n (2000000000000 - (n : Int) - 1)))
          [] []).nextWarm
        (rotateTiers 2000000000000 0 1000000
          ((List.range 21).map (fun n => freshEntry n (2000000000000 - (n : Int) - 1)))
          [] []).nextCold).coldPrunedCount = 0) :=
  rotateTiers_conservation_idempotent 2000000000000 0 1000000
    ((List.range 21).map (fun n => freshEntry n (2000000000000 - (n : Int) - 1))) 1
    (by decide) (by decide) (by decide) (by decide) (by decide)

/-- C4 counterexample: 21 hot entries of which the oldest is 22 days old
rotate to warm size 0 (the aged entry moves straight on to cold), while
the claim promises `|warm'| = k = 1` for any hot set of size
`hotKeep + k`. -/
theorem rotateTiers_conservation_counterexample :
    (rotateTiers 2000000000000 0 1000000
        (freshEntry 0 (2000000000000 - 22 * 86400000) ::
          (List.range 20).map (fun n => freshEntry (n + 1) (2000000000000 - (n : Int) - 1)))
        [] []).nextHot.length = 20 ∧
      (rotateTiers 2000000000000 0 1000000
        (freshEntry 0 (2000000000000 - 22 * 86400000) ::
          (List.range 20).map (fun n => freshEntry (n + 1) (2000000000000 - (n : Int) - 1)))
        [] []).nextWarm.length = 0 ∧
      (rotateTiers 2000000000000 0 1000000
        (freshEntry 0 (2000000000000 - 22 * 86400000) ::
          (List.range 20).map (fun n => freshEntry (n + 1) (2000000000000 - (n : Int) - 1)))
        [] []).nextCold.length = 1 := by decide

/-! ## C1 — composition anchor safety -/

theorem contains_eq_true_iff (l : List String) (a : String) :
    l.contains a = true ↔ a ∈ l := by
  simp

theorem mem_dedupFirst (a : String) : ∀ l : List String, a ∈ dedupFirst l ↔ a ∈ l
  | [] => Iff.rfl
  | b :: l => by
    unfold dedupFirst
    by_cases hab : a = b
    · subst hab
      simp
    · simp only [List.mem_cons, hab, false_or]
      rw [List.mem_filter]
      simp [hab, mem_dedupFirst a l]

theorem length_dedupFirst_le : ∀ l : List String, (dedupFirst l).length ≤ l.length
  | [] => Nat.le_refl 0
  | b :: l => by
    unfold dedupFirst
    simp only [List.length_cons, Nat.succ_le_succ_iff]
    exact Nat.le_trans (List.length_filter_le _ _) (length_dedupFirst_le l)

theorem mem_uniqueAgents (a : String) (l : List String) :
    a ∈ uniqueAgents l ↔ a ∈ l ∧ jsTrim a ≠ "" := by
  unfold uniqueAgents
  rw [mem_dedupFirst, List.mem_filter]
  simp

theorem length_uniqueAgents_le (l : List String) : (uniqueAgents l).length ≤ l.length :=
  Nat.le_trans (length_dedupFirst_le _) (List.length_filter_le _ _)

/-- An element of a list stays in the list after `set` at an index holding a
different element. -/
theorem mem_set_of_getElem_ne {l : List String} {a b : String} {i : Nat}
    (ha : a ∈ l) (hne : l[i]? ≠ some a) : a ∈ l.set i b := by
  rw [List.mem_iff_getElem] at ha
  obtain ⟨j, hj, hja⟩ := ha
  have hij : i ≠ j := by
    intro h
    subst h
    exact hne (by rw [List.getElem?_eq_getElem hj, hja])
  rw [List.mem_iff_getElem]
  refine ⟨j, by rw [List.length_set]; exact hj, ?_⟩
  rw [List.getElem_set_ne hij]
  exact hja

/-- The candidate step preserves the anchor's membership and the size cap
of the selection. -/
theorem composeStep_invariant (score : List (String × Q)) (baseSet : List String)
    (anchorVal : String) (st : ComposeState) (candidate : String)
    (hmem : anchorVal ∈ st.selected) (hlen : st.selected.length ≤ 4) :
    anchorVal ∈ (composeStep score baseSet (some anchorVal) st candidate).selected ∧
      (composeStep score baseSet (some anchorVal) st candidate).selected.length ≤ 4 := by
  simp only [composeStep]
  split
  · exact ⟨hmem, hlen⟩
  · split
    · next h =>
      refine ⟨List.mem_append_left _ hmem, ?_⟩
      simp only [List.length_append, List.length_cons, List.length_nil]
      have hm : AGENT_COMPOSITION_POLICY.maxAgents = 4 := rfl
      rw [hm] at h
      omega
    · split
      · exact ⟨hmem, hlen⟩
      · next index hfind =>
        have hpred := List.find?_some hfind
        have hne : st.selected[index]? ≠ some anchorVal := by
          intro habs
          rw [habs] at hpred
          simp at hpred
        exact ⟨mem_set_of_getElem_ne hmem hne,
          by simp only [List.length_set]; exact hlen⟩

/-- Preservation of an invariant along a fold. -/
theorem foldl_preserves {α β : Type} {P : α → Prop} (f : α → β → α)
    (hstep : ∀ st c, P st → P (f st c)) :
    ∀ (l : List β) (init : α), P init → P (l.foldl f init)
  | [], _, h => h
  | c :: l, init, h => foldl_preserves f hstep l (f init c) (hstep init c h)

/-- The post-loop fixup of `composeDynamicAgents` keeps a baseline member
of the selection, and keeps at least one baseline role selected. -/
theorem composeFinish_anchor (score : List (String × Q))
    (baseSet fallbackRanked baseline : List String)
    (anchorVal : String) (st : ComposeState)
    (hmem : anchorVal ∈ st.selected) (hlen : st.selected.length ≤ 4)
    (hbase : baseSet.contains anchorVal = true)
    (htrim : jsTrim anchorVal ≠ "") :
    anchorVal ∈ (composeFinish score baseSet fallbackRanked baseline st).agents ∧
      1 ≤ ((composeFinish score baseSet fallbackRanked baseline st).agents.filter
        (fun a => baseSet.contains a)).length := by
  have hne : ¬ st.selected.length = 0 := by
    intro h0
    rw [List.length_eq_zero] at h0
    rw [h0] at hmem
    exact absurd hmem (List.not_mem_nil _)
  have hfix : ¬ ((st.selected.filter (fun a => baseSet.contains a)).length <
      AGENT_COMPOSITION_POLICY.minBaseAgents) := by
    have hcount : 0 < (st.selected.filter (fun a => baseSet.contains a)).length :=
      List.length_pos_of_mem (List.mem_filter.mpr ⟨hmem, hbase⟩)
    have h1 : AGENT_COMPOSITION_POLICY.minBaseAgents = 1 := rfl
    rw [h1]
    omega
  simp only [composeFinish]
  rw [if_neg hne, if_neg hfix]
  have hperm := stableSort_perm (orderedLe score) (uniqueAgents st.selected)
  have hlen2 : (stableSort (orderedLe score) (uniqueAgents st.selected)).length ≤
      AGENT_COMPOSITION_POLICY.maxAgents := by
    rw [length_stableSort]
    exact le_trans (length_uniqueAgents_le _) hlen
  rw [List.take_of_length_le hlen2]
  have hmem2 : anchorVal ∈ stableSort (orderedLe score) (uniqueAgents st.selected) :=
    hperm.mem_iff.mpr ((mem_uniqueAgents _ _).mpr ⟨hmem, htrim⟩)
  exact ⟨hmem2, List.length_pos_of_mem (List.mem_filter.mpr ⟨hmem2, hbase⟩)⟩

/-- C1 (amended): the role that `composeDynamicAgents` protects is the
*first-listed* baseline role — `uniqueAgents(baseAgents)[0]` — not the
highest-scored one.  Provided the deduplicated baseline list is non-empty,
fits within `maxAgents`, and consists of known roles (or no known-role
filter is in force), that first-listed baseline role is always present in
the final composed list, and the number of baseline roles in the final
list is at least `minBaseAgents`. -/
theorem composeDynamicAgents_anchor (scoring : AgentScoringResult)
    (baseAgents knownAgents : List String) (similarityBoost : List (String × Q))
    (anchorVal : String)
    (hanchor : (uniqueAgents baseAgents).head? = some anchorVal)
    (hsizeB : (uniqueAgents baseAgents).length ≤ 4)
    (hknown : knownAgents = [] ∨
      ∀ a ∈ uniqueAgents baseAgents, knownAgents.contains a = true) :
    anchorVal ∈ (composeDynamicAgents scoring baseAgents knownAgents similarityBoost).agents ∧
      AGENT_COMPOSITION_POLICY.minBaseAgents ≤
        ((composeDynamicAgents scoring baseAgents knownAgents similarityBoost).agents.filter
          (fun a => (uniqueAgents baseAgents).contains a)).length := by
  have hanchormem : anchorVal ∈ uniqueAgents baseAgents := by
    cases hu : uniqueAgents baseAgents with
    | nil => rw [hu] at hanchor; simp at hanchor
    | cons hd tl =>
      rw [hu] at hanchor
      simp only [List.head?_cons, Option.some.injEq] at hanchor
      rw [← hanchor]
      exact List.mem_cons_self _ _
  have hanchtrim : jsTrim anchorVal ≠ "" :=
    ((mem_uniqueAgents _ _).mp hanchormem).2
  have hanchcont : (uniqueAgents baseAgents).contains anchorVal = true :=
    (contains_eq_true_iff _ _).mpr hanchormem
  have hfilter : (uniqueAgents baseAgents).filter
      (fun a => if knownAgents.length > 0 then knownAgents.contains a else true) =
      uniqueAgents baseAgents := by
    rw [List.filter_eq_self]
    intro a ha
    rcases hknown with hk | hk
    · subst hk
      simp
    · split
      · exact hk a ha
      · rfl
  have hsortperm := stableSort_perm
    (baselineLe scoring.scoreByAgent baseAgents) (uniqueAgents baseAgents)
  have hsortlen : (stableSort (baselineLe scoring.scoreByAgent baseAgents)
      (uniqueAgents baseAgents)).length ≤ AGENT_COMPOSITION_POLICY.maxAgents := by
    rw [length_stableSort]
    exact hsizeB
  have hanchbase : anchorVal ∈ stableSort (baselineLe scoring.scoreByAgent baseAgents)
      (uniqueAgents baseAgents) := hsortperm.mem_iff.mpr hanchormem
  have hbaselen : (stableSort (baselineLe scoring.scoreByAgent baseAgents)
      (uniqueAgents baseAgents)).length ≤ 4 := by
    rw [length_stableSort]
    exact hsizeB
  have hinv : ∀ l : List String,
      anchorVal ∈ (l.foldl (composeStep scoring.scoreByAgent (uniqueAgents baseAgents)
          ((uniqueAgents baseAgents).head?))
          { selected := stableSort (baselineLe scoring.scoreByAgent baseAgents)
              (uniqueAgents baseAgents), injected := [], replaced := [] }).selected ∧
        (l.foldl (composeStep scoring.scoreByAgent (uniqueAgents baseAgents)
          ((uniqueAgents baseAgents).head?))
          { selected := stableSort (baselineLe scoring.scoreByAgent baseAgents)
              (uniqueAgents baseAgents), injected := [], replaced := [] }).selected.length ≤ 4 :=
    fun l =>
      foldl_preserves
        (P := fun st : ComposeState => anchorVal ∈ st.selected ∧ st.selected.length ≤ 4)
        _ (fun st c hP => by
        rw [hanchor]
        exact composeStep_invariant scoring.scoreByAgent (uniqueAgents baseAgents)
          anchorVal st c hP.1 hP.2) l _ ⟨hanchbase, hbaselen⟩
  simp only [composeDynamicAgents]
  rw [hfilter]
  rw [List.take_of_length_le hsortlen]
  exact composeFinish_anchor scoring.scoreByAgent (uniqueAgents baseAgents) _ _ anchorVal _
    (hinv _).1 (hinv _).2 hanchcont hanchtrim


theorem composeDynamicAgents_anchor_witness :
    "a" ∈ (composeDynamicAgents
        { rankedAgents := ["b"], scoreByAgent := [("b", 10)] } ["a", "b"] [] []).agents ∧
      AGENT_COMPOSITION_POLICY.minBaseAgents ≤
        ((composeDynamicAgents
            { rankedAgents := ["b"], scoreByAgent := [("b", 10)] } ["a", "b"] [] []).agents.filter
          (fun a => (uniqueAgents ["a", "b"]).contains a)).length :=
  composeDynamicAgents_anchor
    { rankedAgents := ["b"], scoreByAgent := [("b", 10)] } ["a", "b"] [] [] "a"
    (by decide) (by decide) (Or.inl rfl)

/-- C1 counterexample: with baseline roles `a` (score 0) and `b` (score 10)
and injectable candidates `c1`, `c2` (score 10.5) and `c3` (score 11), the
composed list is `[c3, c1, c2, a]`: the strictly highest-scored baseline
role `b` has been replaced and is absent, while the first-listed baseline
role `a` is kept (it is the protected anchor). -/
theorem composeDynamicAgents_counterexample :
    (composeDynamicAgents
        { rankedAgents := ["b", "c1", "c2", "c3", "a"],
          scoreByAgent := [("a", 0), ("b", 10), ("c1", mkQ 21 2), ("c2", mkQ 21 2),
            ("c3", 11)] } ["a", "b"] [] []).agents = ["c3", "c1", "c2", "a"] ∧
      scoreGet [("a", 0), ("b", 10), ("c1", mkQ 21 2), ("c2", mkQ 21 2), ("c3", 11)] "a" <
        scoreGet [("a", 0), ("b", 10), ("c1", mkQ 21 2), ("c2", mkQ 21 2), ("c3", 11)] "b" ∧
      "b" ∉ (composeDynamicAgents
        { rankedAgents := ["b", "c1", "c2", "c3", "a"],
          scoreByAgent := [("a", 0), ("b", 10), ("c1", mkQ 21 2), ("c2", mkQ 21 2),
            ("c3", 11)] } ["a", "b"] [] []).agents := by
  decide


/-! ## C2 — full recompute vs incremental replay -/

/-- One ledger row taken through `recomputeStep` and through
`updateSuccessPattern` preserves the key-map/pattern-list correspondence,
and grows the key map by at most one entry. -/
theorem recompute_replay_step (realNow : Int) (Src : HistoryRow → Prop)
    (hinj : ∀ r1 r2, Src r1 → Src r2 → rowUsable r1 = true → rowUsable r2 = true →
      rowKey r1 = rowKey r2 → rowComponents r1 = rowComponents r2)
    (r : HistoryRow) (hr : Src r) (byKey : List (String × SuccessPattern))
    (pats : List SuccessPattern) (hlen : byKey.length + 1 ≤ 50)
    (hInv : RecomputeInv Src byKey pats) :
    RecomputeInv Src (recomputeStep realNow byKey r)
      ((updateSuccessPattern realNow (rowToUpdateInput r) pats).2) ∧
    (recomputeStep realNow byKey r).length ≤ byKey.length + 1 := by
  unfold RecomputeInv at hInv ⊢
  obtain ⟨hperm, hnd, hkey, hprov⟩ := hInv
  by_cases hm : rowMethod r = ""
  · rw [recomputeStep_skip_method realNow byKey r hm,
      updateSuccessPattern_skip_method realNow r pats hm]
    exact ⟨⟨hperm, hnd, hkey, hprov⟩, Nat.le_succ _⟩
  · cases hs : historySignal r with
    | none =>
      rw [recomputeStep_skip_signal realNow byKey r hm hs,
        updateSuccessPattern_skip_signal realNow r pats hs]
      exact ⟨⟨hperm, hnd, hkey, hprov⟩, Nat.le_succ _⟩
    | some sg =>
      have husable : rowUsable r = true := by
        simp [rowUsable, hm, hs]
      cases hl : byKey.lookup (rowKey r) with
      | none =>
        have hfind : pats.findIdx? (updateMatches (rowToUpdateInput r)) = none := by
          rw [findIdx?_eq_none_iff]
          intro p hp
          by_contra hpt
          have hpt2 : updateMatches (rowToUpdateInput r) p = true := by
            cases hu : updateMatches (rowToUpdateInput r) p
            · exact absurd hu hpt
            · rfl
          have hcomp := (updateMatches_row r p).mp hpt2
          have hpmem : p ∈ byKey.map Prod.snd := hperm.mem_iff.mp hp
          obtain ⟨kp, hkp, hkp2⟩ := List.mem_map.mp hpmem
          have hk1 : kp.1 = rowKey r := by
            rw [hkey kp hkp, hkp2]
            exact patternKey_eq_rowKey p r hcomp
          have hsome : (byKey.lookup (rowKey r)).isSome = true := by
            have hkpm : (kp.1, kp.2) ∈ byKey := by simpa using hkp
            rw [hk1] at hkpm
            exact lookup_isSome_of_mem _ _ byKey hkpm
          rw [hl] at hsome
          simp at hsome
        rw [recomputeStep_create realNow byKey r sg hm hs hl,
          updateSuccessPattern_create realNow r pats sg hm hs hfind]
        refine ⟨⟨?_, ?_, ?_, ?_⟩, ?_⟩
        · have hlenapp : (pats ++ [applyRowToPattern realNow r sg none]).length ≤ 50 := by
            rw [List.length_append, hperm.length_eq, List.length_map]
            simpa using hlen
          rw [List.take_of_length_le (by rw [length_stableSort]; exact hlenapp)]
          refine (stableSort_perm patternLe _).trans ?_
          rw [List.map_append, List.map_cons, List.map_nil]
          exact hperm.append_right _
        · rw [List.map_append, List.map_cons, List.map_nil, List.nodup_append]
          refine ⟨hnd, List.nodup_singleton _, ?_⟩
          intro a ha hb
          rw [List.mem_singleton] at hb
          subst hb
          obtain ⟨kv, hkv, hkv2⟩ := List.mem_map.mp ha
          exact (lookup_eq_none_iff _ byKey).mp hl kv hkv hkv2
        · intro kp hkp
          rcases List.mem_append.mp hkp with h1 | h2
          · exact hkey kp h1
          · rw [List.mem_singleton] at h2
            subst h2
            exact (patternKey_eq_rowKey _ r (patternComponents_applyRow_none realNow r sg)).symm
        · intro kp hkp
          rcases List.mem_append.mp hkp with h1 | h2
          · exact hprov kp h1
          · rw [List.mem_singleton] at h2
            subst h2
            exact ⟨r, hr, husable,
              (patternComponents_applyRow_none realNow r sg).symm⟩
        · rw [List.length_append]
          exact Nat.le_refl _
      | some cur =>
        have hcurmem : (rowKey r, cur) ∈ byKey := lookup_some_mem _ _ byKey hl
        have hcurkey : rowKey r = patternKey cur := hkey _ hcurmem
        obtain ⟨r0, hr0src, hr0use, hr0comp⟩ := hprov _ hcurmem
        have hr0key : rowKey r0 = rowKey r := by
          rw [← patternKey_eq_rowKey cur r0 hr0comp.symm, ← hcurkey]
        have hcomp : patternComponents cur = rowComponents r := by
          rw [← hr0comp]
          exact hinj r0 r hr0src hr hr0use husable hr0key
        have hcurpats : cur ∈ pats := hperm.mem_iff.mpr
          (List.mem_map.mpr ⟨(rowKey r, cur), hcurmem, rfl⟩)
        have hfindsome := findIdx?_isSome_of_mem (updateMatches (rowToUpdateInput r)) pats cur
          hcurpats ((updateMatches_row r cur).mpr hcomp)
        obtain ⟨i, hfind⟩ := Option.isSome_iff_exists.mp hfindsome
        obtain ⟨v, hv, hpv⟩ := findIdx?_some_spec _ pats i hfind
        have hvcomp := (updateMatches_row r v).mp hpv
        have hvmem : v ∈ pats := by
          have hlt : i < pats.length := by
            by_contra hge
            rw [List.getElem?_eq_none (Nat.le_of_not_lt hge)] at hv
            cases hv
          rw [List.getElem?_eq_getElem hlt] at hv
          rw [← Option.some.inj hv]
          exact List.getElem_mem _
        have hveq : v = cur := by
          have hvb : v ∈ byKey.map Prod.snd := hperm.mem_iff.mp hvmem
          obtain ⟨kv, hkv, hkv2⟩ := List.mem_map.mp hvb
          have hkvk : kv.1 = rowKey r := by
            rw [hkey kv hkv, hkv2]
            exact patternKey_eq_rowKey v r hvcomp
          have hlk : byKey.lookup (rowKey r) = some kv.2 := by
            rw [← hkvk]
            exact lookup_eq_some_of_mem_nodup kv.1 kv.2 byKey hnd (by simpa using hkv)
          rw [hl] at hlk
          rw [← hkv2]
          exact (Option.some.inj hlk).symm
        rw [hveq] at hv
        obtain ⟨b1, b2, hbk, hbk2⟩ :=
          map_replace_of_lookup (rowKey r) (applyRowToPattern realNow r sg (some cur))
            byKey cur hnd hl
        rw [recomputeStep_existing realNow byKey r sg cur hm hs hl,
          updateSuccessPattern_existing realNow r pats sg i cur hm hs hfind hv]
        refine ⟨⟨?_, ?_, ?_, ?_⟩, ?_⟩
        · have hlenset :
              (pats.set i (applyRowToPattern realNow r sg (some cur))).length ≤ 50 := by
            rw [List.length_set, hperm.length_eq, List.length_map]
            omega
          rw [List.take_of_length_le (by rw [length_stableSort]; exact hlenset)]
          have hpermsplit : pats.Perm
              (List.map Prod.snd b1 ++ cur :: List.map Prod.snd b2) := by
            have hp2 := hperm
            rw [hbk] at hp2
            simpa [List.map_append] using hp2
          have hsetperm := perm_replace_middle
            (y := applyRowToPattern realNow r sg (some cur)) pats i _ _ hv hpermsplit
          refine (stableSort_perm patternLe _).trans (hsetperm.trans ?_)
          rw [hbk2]
          simp only [List.map_append, List.map_cons]
          exact List.Perm.refl _
        · have hmapeq : ((byKey.map (fun kv : String × SuccessPattern =>
              if kv.1 = rowKey r then (rowKey r, applyRowToPattern realNow r sg (some cur))
              else kv)).map Prod.fst) = byKey.map Prod.fst := by
            rw [List.map_map]
            apply List.map_congr_left
            intro kv hkv
            simp only [Function.comp_apply]
            split
            · next he => exact he.symm
            · rfl
          rw [hmapeq]
          exact hnd
        · intro kp hkp
          obtain ⟨kv, hkv, hkv2⟩ := List.mem_map.mp hkp
          subst hkv2
          split
          · exact (patternKey_eq_rowKey _ r
              (patternComponents_applyRow_some realNow r sg cur hcomp)).symm
          · exact hkey kv hkv
        · intro kp hkp
          obtain ⟨kv, hkv, hkv2⟩ := List.mem_map.mp hkp
          subst hkv2
          split
          · exact ⟨r, hr, husable,
              (patternComponents_applyRow_some realNow r sg cur hcomp).symm⟩
          · exact hprov kv hkv
        · rw [List.length_map]
          exact Nat.le_succ _

/-- The whole-ledger fold preserves the correspondence, and the key map
never exceeds 50 entries when the ledger fits in 50 rows. -/
theorem recompute_replay_loop (realNow : Int) (Src : HistoryRow → Prop)
    (hinj : ∀ r1 r2, Src r1 → Src r2 → rowUsable r1 = true → rowUsable r2 = true →
      rowKey r1 = rowKey r2 → rowComponents r1 = rowComponents r2) :
    ∀ (l : List HistoryRow) (byKey : List (String × SuccessPattern))
      (pats : List SuccessPattern), (∀ r ∈ l, Src r) → byKey.length + l.length ≤ 50 →
      RecomputeInv Src byKey pats →
      RecomputeInv Src (l.foldl (recomputeStep realNow) byKey)
        (l.foldl (fun ps row => (updateSuccessPattern realNow (rowToUpdateInput row) ps).2)
          pats) ∧
      (l.foldl (recomputeStep realNow) byKey).length ≤ 50
  | [], byKey, pats, _, hlen, hInv => ⟨hInv, by simpa using hlen⟩
  | r :: l, byKey, pats, hsrc, hlen, hInv => by
    simp only [List.foldl_cons]
    have hlen1 : byKey.length + 1 ≤ 50 := by
      simp only [List.length_cons] at hlen
      omega
    obtain ⟨hInv1, hlen2⟩ := recompute_replay_step realNow Src hinj r
      (hsrc r (List.mem_cons_self _ _)) byKey pats hlen1 hInv
    exact recompute_replay_loop realNow Src hinj l _ _
      (fun x hx => hsrc x (List.mem_cons_of_mem _ hx))
      (by simp only [List.length_cons] at hlen; omega) hInv1

/-- C2 (amended): the full recompute matches an `updateSuccessPattern`
replay of the ledger only up to reordering, and only under side
conditions the code does not enforce: the ledger holds at most 50 rows
(the incremental path truncates to the top 50 patterns at every step),
the ledger is already in chronological order, and no two usable rows with
distinct key components share a `'|'`-joined composite key — the
recompute buckets rows by the joined key string while the incremental
update matches patterns field by field, so field values containing `'|'`
can collide.  The function is deterministic given the ledger contents
only when every row carries a parsable timestamp; a row without one is
stamped with the current clock. -/
theorem recomputePatterns_replay_equiv (realNow now2 : Int) (rows : List HistoryRow)
    (hlen : rows.length ≤ 50)
    (hchrono : rows.Pairwise (fun a b =>
      normalizeDate a.timestamp realNow ≤ normalizeDate b.timestamp realNow))
    (hinj : ∀ r1 ∈ rows, ∀ r2 ∈ rows, rowUsable r1 = true → rowUsable r2 = true →
      rowKey r1 = rowKey r2 → rowComponents r1 = rowComponents r2) :
    (recomputePatternsFromHistory realNow rows SUCCESS_PATTERN_RECOMPUTE_POLICY).Perm
        (replayLedger realNow rows) ∧
      (rows.all (fun r => r.timestamp.isSome) = true →
        recomputePatternsFromHistory realNow rows SUCCESS_PATTERN_RECOMPUTE_POLICY =
          recomputePatternsFromHistory now2 rows SUCCESS_PATTERN_RECOMPUTE_POLICY) := by
  have hsort1 : stableSort (fun a b =>
      decide (normalizeDate a.timestamp realNow ≤ normalizeDate b.timestamp realNow)) rows
      = rows :=
    stableSort_eq_self _ rows (hchrono.imp (fun h => decide_eq_true h))
  obtain ⟨hInvF, hlenf⟩ := recompute_replay_loop realNow (· ∈ rows)
    (fun r1 r2 h1 h2 => hinj r1 h1 r2 h2) rows [] [] (fun _ hr => hr)
    (by simpa using hlen)
    (by
      unfold RecomputeInv
      exact ⟨List.Perm.refl _, List.nodup_nil,
        fun kp h => absurd h (List.not_mem_nil _),
        fun kp h => absurd h (List.not_mem_nil _)⟩)
  unfold RecomputeInv at hInvF
  obtain ⟨hperm, -, -, -⟩ := hInvF
  constructor
  · unfold recomputePatternsFromHistory
    rw [hsort1]
    have hlenmap : ((rows.foldl (recomputeStep realNow) []).map Prod.snd).length ≤
        SUCCESS_PATTERN_RECOMPUTE_POLICY.maxPatterns := by
      rw [List.length_map]
      exact hlenf
    rw [List.take_of_length_le (by rw [length_stableSort]; exact hlenmap)]
    unfold replayLedger
    exact (stableSort_perm patternLe _).trans hperm.symm
  · intro hall
    have hallmem : ∀ r ∈ rows, r.timestamp.isSome = true := by
      intro r hr
      exact (List.all_eq_true.mp hall) r hr
    have hsort2 : stableSort (fun a b =>
        decide (normalizeDate a.timestamp now2 ≤ normalizeDate b.timestamp now2)) rows
        = rows := by
      refine stableSort_eq_self _ rows (List.Pairwise.imp_of_mem ?_ hchrono)
      intro a b ha hb hle
      obtain ⟨ta, hta⟩ := Option.isSome_iff_exists.mp (hallmem a ha)
      obtain ⟨tb, htb⟩ := Option.isSome_iff_exists.mp (hallmem b hb)
      simp only [normalizeDate, hta, htb, Option.getD_some] at hle ⊢
      exact decide_eq_true hle
    simp only [recomputePatternsFromHistory]
    rw [hsort1, hsort2]
    have hstep : ∀ (acc : List (String × SuccessPattern)), ∀ r ∈ rows,
        recomputeStep realNow acc r = recomputeStep now2 acc r := by
      intro acc r hr
      obtain ⟨t, ht⟩ := Option.isSome_iff_exists.mp (hallmem r hr)
      have happly : ∀ (sgn : PatternSignal) (x : Option SuccessPattern),
          applyRowToPattern realNow r sgn x = applyRowToPattern now2 r sgn x := by
        intro sgn x
        cases x <;> simp [applyRowToPattern, normalizeDate, ht]
      simp only [recomputeStep, happly]
    rw [foldl_congr_mem _ _ rows [] hstep]

theorem recomputePatterns_replay_equiv_witness :
    (recomputePatternsFromHistory 5 [plainRow] SUCCESS_PATTERN_RECOMPUTE_POLICY).Perm
        (replayLedger 5 [plainRow]) ∧
      (([plainRow] : List HistoryRow).all (fun r => r.timestamp.isSome) = true →
        recomputePatternsFromHistory 5 [plainRow] SUCCESS_PATTERN_RECOMPUTE_POLICY =
          recomputePatternsFromHistory 7 [plainRow] SUCCESS_PATTERN_RECOMPUTE_POLICY) :=
  recomputePatterns_replay_equiv 5 7 [plainRow] (by decide) (by simp) (by decide)

/-- C2 counterexample: `collisionRow1` (intent `a|b`, agent `m`) and
`collisionRow2` (intent `a`, agent `b|m`) have different composite-key
components but the same `'|'`-joined key, so `recomputePatternsFromHistory`
merges them into one pattern while the `updateSuccessPattern` replay keeps
two — the results differ even as multisets. -/
theorem recompute_replay_counterexample :
    ¬ (recomputePatternsFromHistory 0 [collisionRow1, collisionRow2]
        SUCCESS_PATTERN_RECOMPUTE_POLICY).Perm
      (replayLedger 0 [collisionRow1, collisionRow2]) ∧
    recomputePatternsFromHistory 0 [collisionRow1, collisionRow2]
        SUCCESS_PATTERN_RECOMPUTE_POLICY ≠
      replayLedger 0 [collisionRow1, collisionRow2] := by
  decide

end GPAI
